import Mathlib

/-!
# collector: metrics sidecar (collector.go)

A shallow embedding of `collector.go` and the properties of its specification.

Modelling conventions.

* A Go `string` is the list of its bytes (`GoString`), valid UTF-8 or not; `len(s)`
  is the length of the list.  Runes are natural numbers, decoded from the bytes
  as Go's `unicode/utf8` does (`DecodeRune`, `rangeRunes`).
* The input of a `bufio.Scanner` is given by its lines, the texts between the
  newline bytes.  The scanner hands out each line without a trailing carriage
  return and stops, with an error that the program never reads, at the first line
  that does not fit its 64 KiB buffer.
* A `time.Duration` is an integer number of nanoseconds.
* `float64` values are kept abstract: the functions are parametric in the value
  type and in `strconv.ParseFloat`; likewise `time.ParseDuration` is a parameter.
* A Go run-time panic is an explicit result (`Run.panicked`).
-/

namespace Collector

/-! ## Strings -/

/-- A byte. -/
abbrev Byte := Fin 256

/-- A Go string: a sequence of bytes, valid UTF-8 or not. -/
abbrev GoString := List Byte

/-- Go `utf8.RuneError`, U+FFFD. -/
def RuneError : Nat := 0xFFFD

/-- Go `utf8.AppendRune`: the UTF-8 encoding of a rune; surrogates and values past
U+10FFFF are encoded as `RuneError`. -/
def EncodeRune (r : Nat) : GoString :=
  if r ≤ 0x7F then [Fin.ofNat r]
  else if r ≤ 0x7FF then [Fin.ofNat (0xC0 + r / 64), Fin.ofNat (0x80 + r % 64)]
  else if r > 0x10FFFF ∨ (0xD800 ≤ r ∧ r ≤ 0xDFFF) then [0xEF, 0xBF, 0xBD]
  else if r ≤ 0xFFFF then
    [Fin.ofNat (0xE0 + r / 4096), Fin.ofNat (0x80 + r / 64 % 64), Fin.ofNat (0x80 + r % 64)]
  else
    [Fin.ofNat (0xF0 + r / 262144), Fin.ofNat (0x80 + r / 4096 % 64),
      Fin.ofNat (0x80 + r / 64 % 64), Fin.ofNat (0x80 + r % 64)]

/-- The bytes of a string literal of the Go source, which is UTF-8 text. -/
def lit (s : String) : GoString := s.data.flatMap (fun c => EncodeRune c.toNat)

/-- The byte of an ASCII character constant. -/
def byte (c : Char) : Byte := Fin.ofNat c.toNat

/-- The table `first` of Go's `unicode/utf8` for a lead byte of a multi-byte
sequence: the length of the sequence and the accepted range of its second byte;
`none` for the bytes that start no sequence. -/
def firstInfo (b : Nat) : Option (Nat × Nat × Nat) :=
  if 0xC2 ≤ b ∧ b ≤ 0xDF then some (2, 0x80, 0xBF)
  else if b = 0xE0 then some (3, 0xA0, 0xBF)
  else if (0xE1 ≤ b ∧ b ≤ 0xEC) ∨ b = 0xEE ∨ b = 0xEF then some (3, 0x80, 0xBF)
  else if b = 0xED then some (3, 0x80, 0x9F)
  else if b = 0xF0 then some (4, 0x90, 0xBF)
  else if 0xF1 ≤ b ∧ b ≤ 0xF3 then some (4, 0x80, 0xBF)
  else if b = 0xF4 then some (4, 0x80, 0x8F)
  else none

/-- Go `utf8.DecodeRuneInString`: the first rune of `s` and its width in bytes;
`(RuneError, 0)` for the empty string and `(RuneError, 1)` for a byte that
starts no valid encoding. -/
def DecodeRune (s : GoString) : Nat × Nat :=
  match s with
  | [] => (RuneError, 0)
  | s0 :: _ =>
    if s0.val < 0x80 then (s0.val, 1)
    else
      match firstInfo s0.val with
      | none => (RuneError, 1)
      | some (sz, lo, hi) =>
        if s.length < sz then (RuneError, 1)
        else if (s.getD 1 0).val < lo ∨ hi < (s.getD 1 0).val then (RuneError, 1)
        else if sz ≤ 2 then (s0.val % 32 * 64 + (s.getD 1 0).val % 64, 2)
        else if (s.getD 2 0).val < 0x80 ∨ 0xBF < (s.getD 2 0).val then (RuneError, 1)
        else if sz ≤ 3 then
          (s0.val % 16 * 4096 + (s.getD 1 0).val % 64 * 64 + (s.getD 2 0).val % 64, 3)
        else if (s.getD 3 0).val < 0x80 ∨ 0xBF < (s.getD 3 0).val then (RuneError, 1)
        else
          (s0.val % 8 * 262144 + (s.getD 1 0).val % 64 * 4096 + (s.getD 2 0).val % 64 * 64
            + (s.getD 3 0).val % 64, 4)

/-- The index at which the backward search of Go `utf8.DecodeLastRuneInString`
stops: the nearest byte among the three before the last that is not a
continuation byte (`utf8.RuneStart`), else the byte before them (or 0). -/
def lastRuneStart (s : GoString) : Nat :=
  if 2 ≤ s.length ∧ (s.getD (s.length - 2) 0).val / 64 ≠ 2 then s.length - 2
  else if 3 ≤ s.length ∧ (s.getD (s.length - 3) 0).val / 64 ≠ 2 then s.length - 3
  else if 4 ≤ s.length ∧ (s.getD (s.length - 4) 0).val / 64 ≠ 2 then s.length - 4
  else s.length - 5

/-- Go `utf8.DecodeLastRuneInString`: the last rune of `s` and its width. -/
def DecodeLastRune (s : GoString) : Nat × Nat :=
  if s.length = 0 then (RuneError, 0)
  else if (s.getD (s.length - 1) 0).val < 0x80 then ((s.getD (s.length - 1) 0).val, 1)
  else if lastRuneStart s + (DecodeRune (s.drop (lastRuneStart s))).2 ≠ s.length then
    (RuneError, 1)
  else DecodeRune (s.drop (lastRuneStart s))

/-- The iteration `for _, c := range s` of Go: the runes of `s` with their widths,
an invalid byte giving `(RuneError, 1)`.  `fuel` bounds the number of runes. -/
def rangeFuel : Nat → GoString → List (Nat × Nat)
  | 0, _ => []
  | fuel + 1, s =>
    match s with
    | [] => []
    | _ :: _ => DecodeRune s :: rangeFuel fuel (s.drop (DecodeRune s).2)

/-- The runes of `s` with their widths, as `range s` yields them. -/
def rangeRunes (s : GoString) : List (Nat × Nat) := rangeFuel s.length s

/-- The runes of `s`, as `range s` yields them. -/
def runes (s : GoString) : List Nat := (rangeRunes s).map Prod.fst

/-- Go `utf8.ValidString`: no byte of `s` decodes as an encoding error. -/
def ValidString (s : GoString) : Bool :=
  (rangeRunes s).all (fun d => !(d.1 = RuneError && d.2 = 1))

/-- Go `unicode.IsSpace`: the Latin-1 white space characters and the characters
with the Unicode White_Space property above Latin-1. -/
def IsSpace (r : Nat) : Bool :=
  r = 0x09 || r = 0x0A || r = 0x0B || r = 0x0C || r = 0x0D || r = 0x20
    || r = 0x85 || r = 0xA0 || r = 0x1680
    || (0x2000 ≤ r && r ≤ 0x200A)
    || r = 0x2028 || r = 0x2029 || r = 0x202F
    || r = 0x205F || r = 0x3000

/-- Go `strings.TrimLeftFunc(s, unicode.IsSpace)`: `s` from its first rune that is
not white space on (empty when there is none). -/
def trimLeftFuel : Nat → GoString → GoString
  | 0, s => s
  | fuel + 1, s =>
    match s with
    | [] => []
    | _ :: _ =>
      if IsSpace (DecodeRune s).1 then trimLeftFuel fuel (s.drop (DecodeRune s).2) else s

/-- The `lastIndexFunc(s, unicode.IsSpace, false)` of Go `strings`: going backwards
with `DecodeLastRuneInString`, the index of the last rune that is not white
space; `none` is Go's `-1`. -/
def lastIndexNotSpace : Nat → GoString → Option Nat
  | 0, _ => none
  | fuel + 1, s =>
    match s with
    | [] => none
    | _ :: _ =>
      if IsSpace (DecodeLastRune s).1 then
        lastIndexNotSpace fuel (s.take (s.length - (DecodeLastRune s).2))
      else some (s.length - (DecodeLastRune s).2)

/-- Go `strings.TrimRightFunc(s, unicode.IsSpace)`. -/
def TrimRightSpace (s : GoString) : GoString :=
  match lastIndexNotSpace s.length s with
  | none => []
  | some i =>
    if 0x80 ≤ (s.getD i 0).val then s.take (i + (DecodeRune (s.drop i)).2)
    else s.take (i + 1)

/-- Go `strings.TrimSpace`: leading and trailing white space removed.  Go strips
ASCII white space byte by byte and otherwise calls `TrimFunc` /
`TrimRightFunc` with `unicode.IsSpace`; in every case the result is
`TrimRightFunc(TrimLeftFunc(s))`. -/
def TrimSpace (s : GoString) : GoString := TrimRightSpace (trimLeftFuel s.length s)

/-- Go `strings.HasPrefix(s, string(c))` for a one-byte prefix. -/
def HasPrefix (s : GoString) (c : Byte) : Bool :=
  match s with
  | [] => false
  | d :: _ => d = c

/-- Go `strings.Index(s, string(c))` for a one-byte separator: the position of the
first occurrence, if any. -/
def Index (s : GoString) (c : Byte) : Option Nat :=
  match s with
  | [] => none
  | d :: rest => if d = c then some 0 else (Index rest c).map (· + 1)

/-- Go `strings.Contains(s, string(c))`, which is `Index(s, sep) >= 0`. -/
def Contains (s : GoString) (c : Byte) : Bool := (Index s c).isSome

/-- Go `strings.SplitN(s, string(c), 2)`: at most two pieces, cut at the first
occurrence of the separator; the whole string alone when it does not occur. -/
def SplitN2 (s : GoString) (c : Byte) : List GoString :=
  match Index s c with
  | none => [s]
  | some i => [s.take i, s.drop (i + 1)]

/-- Go `bufio.MaxScanTokenSize`, the buffer limit of a `bufio.Scanner` on which
`Buffer` was not called. -/
def MaxScanTokenSize : Nat := 64 * 1024

/-- Go `dropCR` of `bufio.ScanLines`: the line without one trailing `\r`. -/
def dropCR (data : GoString) : GoString :=
  if data.getLast? = some (byte '\r') then data.dropLast else data

/-! ## sanitize -/

/-- The mapping function passed to `strings.Map` in `sanitize`. -/
def sanitizeRune (r : Nat) : Nat :=
  if ('a'.toNat ≤ r ∧ r ≤ 'z'.toNat) ∨ ('A'.toNat ≤ r ∧ r ≤ 'Z'.toNat)
      ∨ ('0'.toNat ≤ r ∧ r ≤ '9'.toNat) ∨ r = '_'.toNat ∨ r = ':'.toNat then r
  else '_'.toNat

/-- Go `strings.Map(mapping, s)` for a mapping that returns no negative rune: every
rune of `s`, an invalid byte counting as `RuneError`, is replaced by the
encoding of its image. -/
def Map (mapping : Nat → Nat) (s : GoString) : GoString :=
  (runes s).flatMap (fun c => EncodeRune (mapping c))

/-- Go `sanitize`. -/
def sanitize (s : GoString) : GoString := Map sanitizeRune s

/-- The alphabet `[A-Za-z0-9_:]` of the specification, written out. -/
def allowedChars : List Char :=
  "ABCDEFGHIJKLMNOPQRSTUVWXYZabcdefghijklmnopqrstuvwxyz0123456789_:".toList

/-- A rune of the alphabet `[A-Za-z0-9_:]`. -/
def isAllowed (r : Nat) : Prop := r ∈ allowedChars.map Char.toNat

instance (r : Nat) : Decidable (isAllowed r) := by unfold isAllowed; infer_instance

/-! ## Results of Go code -/

/-- A run-time panic of the Go program. -/
inductive Panic where
  | indexOutOfRange
  | registerFailed (name : GoString)
  | nonPositiveTicker
  deriving DecidableEq, Repr

/-- The result of running Go code that may panic. -/
inductive Run (α : Type) where
  | returned (a : α)
  | panicked (p : Panic)
  deriving DecidableEq, Repr

/-! ## parseNodeConfig -/

/-- A `time.Duration`: a number of nanoseconds. -/
abbrev Duration := Int

/-- Go `time.Second`. -/
def Second : Duration := 1000000000

/-- The local `defaultType` of `parseNodeConfig`. -/
def defaultType : GoString := lit "default"

/-- The local `defaultInterval` of `parseNodeConfig`: `15 * time.Second`. -/
def defaultInterval : Duration := 15 * Second

/-- The scanning loop of `parseNodeConfig` over the lines of the file, with
`time.ParseDuration` as a parameter (`none` is a parse error).
`scanner.Scan()` is false at the end of the input and at a line of
`MaxScanTokenSize` bytes or more, where the loop ends like at the end of the
input since `scanner.Err()` is never read; `scanner.Text()` is the line without
a trailing carriage return.  An index expression on a slice that is too short
is a panic. -/
def parseNodeConfigLoop (ParseDuration : GoString → Option Duration) (nodeName : GoString) :
    List GoString → Run (GoString × Duration)
  | [] => .returned (defaultType, defaultInterval)
  | raw :: rest =>
    if MaxScanTokenSize ≤ raw.length then .returned (defaultType, defaultInterval)
    else
      let line := TrimSpace (dropCR raw)
      if line == [] || HasPrefix line (byte '#') || !Contains line (byte '=') then
        parseNodeConfigLoop ParseDuration nodeName rest
      else
        let parts := SplitN2 line (byte '=')
        match parts[0]? with
        | none => .panicked .indexOutOfRange
        | some p0 =>
          if TrimSpace p0 = nodeName then
            match parts[1]? with
            | none => .panicked .indexOutOfRange
            | some p1 =>
              let val := TrimSpace p1
              if Contains val (byte ':') then
                let configParts := SplitN2 val (byte ':')
                match configParts[0]? with
                | none => .panicked .indexOutOfRange
                | some nodeType =>
                  match configParts[1]? with
                  | none => .panicked .indexOutOfRange
                  | some intervalText =>
                    match ParseDuration intervalText with
                    | none => .returned (nodeType, defaultInterval)
                    | some interval => .returned (nodeType, interval)
              else .returned (val, defaultInterval)
          else parseNodeConfigLoop ParseDuration nodeName rest

/-- Go `parseNodeConfig`.  The configuration file is `none` when `os.Open` fails,
otherwise the sequence of its lines. -/
def parseNodeConfig (ParseDuration : GoString → Option Duration)
    (conf : Option (List GoString)) (nodeName : GoString) : Run (GoString × Duration) :=
  match conf with
  | none => .returned (defaultType, defaultInterval)
  | some lines => parseNodeConfigLoop ParseDuration nodeName lines

/-! ### The specification's reading of a configuration line -/

/-- The text before the first occurrence of `c` (all of `s` when there is none). -/
def beforeFirst (c : Byte) (s : GoString) : GoString := s.takeWhile (fun d => d != c)

/-- The text after the first occurrence of `c` (empty when there is none). -/
def afterFirst (c : Byte) (s : GoString) : GoString := (s.dropWhile (fun d => d != c)).drop 1

/-- A meaningful line: after trimming it is non-empty, does not start with `#`
and contains `=`. -/
def isMeaningful (line : GoString) : Prop :=
  TrimSpace line ≠ [] ∧ (TrimSpace line).head? ≠ some (byte '#') ∧ byte '=' ∈ TrimSpace line

instance (line : GoString) : Decidable (isMeaningful line) := by
  unfold isMeaningful; infer_instance

/-- The trimmed text before the first `=` of the trimmed line. -/
def lineKey (line : GoString) : GoString := TrimSpace (beforeFirst (byte '=') (TrimSpace line))

/-- The trimmed text after the first `=` of the trimmed line. -/
def lineValue (line : GoString) : GoString := TrimSpace (afterFirst (byte '=') (TrimSpace line))

/-- A line for the identity: a meaningful line whose key is the identity. -/
def matchesIdentity (line identity : GoString) : Prop :=
  isMeaningful line ∧ lineKey line = identity

instance (line identity : GoString) : Decidable (matchesIdentity line identity) := by
  unfold matchesIdentity; infer_instance

/-- A line of 64 KiB of the letter `x`, used to instantiate the examples. -/
def longLine : GoString := List.replicate 65536 (byte 'x')

/-! ### A sample duration parser -/

/-- The `unitMap` of Go's `time` package, in nanoseconds. -/
def unitMap (u : GoString) : Option Nat :=
  if u = lit "ns" then some 1
  else if u = lit "us" then some 1000
  else if u = [0xC2, 0xB5, byte 's'] then some 1000
  else if u = [0xCE, 0xBC, byte 's'] then some 1000
  else if u = lit "ms" then some 1000000
  else if u = lit "s" then some 1000000000
  else if u = lit "m" then some 60000000000
  else if u = lit "h" then some 3600000000000
  else none

/-- Go `leadingInt` of the `time` package: the value of the leading digits and
the rest of the text; `none` on overflow past `1<<63`. -/
def leadingInt : GoString → Nat → Option (Nat × GoString)
  | [], x => some (x, [])
  | c :: rest, x =>
    if c.val < '0'.toNat ∨ c.val > '9'.toNat then some (x, c :: rest)
    else if x > 2 ^ 63 / 10 then none
    else
      let x1 := x * 10 + (c.val - '0'.toNat)
      if x1 > 2 ^ 63 then none else leadingInt rest x1

/-- A byte that ends a unit in `time.ParseDuration`: `.` or a digit. -/
def isMagnitudeByte (c : Byte) : Bool :=
  c = byte '.' || ('0'.toNat ≤ c.val && c.val ≤ '9'.toNat)

/-- The component loop of `time.ParseDuration` on magnitudes without a decimal
point; `fuel` bounds the number of components. -/
def parseDurationLoop : Nat → GoString → Nat → Option Nat
  | 0, _, _ => none
  | fuel + 1, s, d =>
    match s with
    | [] => some d
    | c :: _ =>
      if !isMagnitudeByte c then none
      else
        match leadingInt s 0 with
        | none => none
        | some (v, s1) =>
          if s1.length = s.length then none
          else if HasPrefix s1 (byte '.') then none
          else
            let u := s1.takeWhile (fun c => !isMagnitudeByte c)
            let s2 := s1.dropWhile (fun c => !isMagnitudeByte c)
            if u = [] then none
            else
              match unitMap u with
              | none => none
              | some unit =>
                if v > 2 ^ 63 / unit then none
                else if d + v * unit > 2 ^ 63 then none
                else parseDurationLoop fuel s2 (d + v * unit)

/-- A sample instance of `time.ParseDuration`, used to instantiate the examples:
the Go function on texts whose magnitudes have no decimal point (sign, then
one or more `digits unit` components, or a bare `0`).  Texts with a decimal
point, whose value Go computes in floating point, are outside the sample and
are rejected here. -/
def sampleParseDuration (s : GoString) : Option Duration :=
  let neg := HasPrefix s (byte '-')
  let s1 := if HasPrefix s (byte '-') || HasPrefix s (byte '+') then s.drop 1 else s
  if s1 = lit "0" then some 0
  else if s1 = [] then none
  else
    match parseDurationLoop (s1.length + 1) s1 0 with
    | none => none
    | some d =>
      if neg then some (-(d : Int))
      else if d > 2 ^ 63 - 1 then none
      else some (d : Int)

/-! ## runAndParseScript -/

/-- The constant `metricPrefix`. -/
def metricPrefix : GoString := lit "edge_"

/-- A Go `error` value, by its message. -/
abbrev GoError := GoString

/-- A `prometheus.Gauge` as the program builds it: the options `Name`, `Help` and
`ConstLabels`, and the value last given to `Set`. -/
structure Gauge (F : Type) where
  name : GoString
  help : GoString
  constLabels : List (GoString × GoString)
  value : F
  deriving DecidableEq, Repr

/-- A `prometheus.Registry`: the registered collectors, in order of registration. -/
abbrev Registry (F : Type) := List (Gauge F)

/-- The metric-name check of the prometheus library applied to a descriptor:
`[a-zA-Z_:][a-zA-Z0-9_:]*`, rune by rune. -/
def IsValidMetricName (n : GoString) : Bool :=
  match runes n with
  | [] => false
  | b :: rest =>
    (('a'.toNat ≤ b && b ≤ 'z'.toNat) || ('A'.toNat ≤ b && b ≤ 'Z'.toNat) || b = '_'.toNat
        || b = ':'.toNat)
      && rest.all (fun b => ('a'.toNat ≤ b && b ≤ 'z'.toNat) || ('A'.toNat ≤ b && b ≤ 'Z'.toNat)
        || b = '_'.toNat || b = ':'.toNat || ('0'.toNat ≤ b && b ≤ '9'.toNat))

/-- The label-name check of the prometheus library: `[a-zA-Z_][a-zA-Z0-9_]*`, not
starting with the reserved `__`. -/
def checkLabelName (l : GoString) : Bool :=
  (match runes l with
    | [] => false
    | b :: rest =>
      (('a'.toNat ≤ b && b ≤ 'z'.toNat) || ('A'.toNat ≤ b && b ≤ 'Z'.toNat) || b = '_'.toNat)
        && rest.all (fun b => ('a'.toNat ≤ b && b ≤ 'z'.toNat)
          || ('A'.toNat ≤ b && b ≤ 'Z'.toNat) || b = '_'.toNat
          || ('0'.toNat ≤ b && b ≤ '9'.toNat)))
    && !(lit "__").isPrefixOf l

/-- The checks of `prometheus.NewDesc`, whose failure makes `Register` return an
error: the metric name and the constant label names are valid, and every
constant label value is valid UTF-8. -/
def descriptorValid {F : Type} (g : Gauge F) : Bool :=
  IsValidMetricName g.name
    && g.constLabels.all (fun kv => checkLabelName kv.1)
    && g.constLabels.all (fun kv => ValidString kv.2)

/-- Two gauges with the same descriptor identity: the same fully-qualified name
and the same constant label values. -/
def sameDescriptor {F : Type} (g h : Gauge F) : Bool :=
  g.name == h.name && g.constLabels.map Prod.snd == h.constLabels.map Prod.snd

/-- The `Registry.MustRegister` of the prometheus library: `Register` returns an
error for an invalid descriptor and for a collector whose descriptor (name and
constant label values) is already registered, and `MustRegister` panics on any
error of `Register`. -/
def MustRegister {F : Type} (registry : Registry F) (g : Gauge F) : Run (Registry F) :=
  if !descriptorValid g then .panicked (.registerFailed g.name)
  else if registry.any (fun h => sameDescriptor h g) then .panicked (.registerFailed g.name)
  else .returned (registry ++ [g])

/-- The gauge built in the loop body for key `key` and parsed value `val`:
`prometheus.NewGauge` with `Help = "Metric from " + nodeType` and the constant
label `node`, then `gauge.Set(val)`.  The registry holds the gauge by reference
and is read only after the loop, so the gauge is recorded with the value set. -/
def newGauge {F : Type} (key nodeName nodeType : GoString) (val : F) : Gauge F :=
  { name := key
    help := lit "Metric from " ++ nodeType
    constLabels := [(lit "node", nodeName)]
    value := val }

/-- The scanning loop of `runAndParseScript` over the lines of the probe's output,
with `strconv.ParseFloat(_, 64)` as a parameter (`none` is a parse error).
`scanner.Scan()` is false at the end of the output and at a line of
`MaxScanTokenSize` bytes or more, where the loop ends like at the end of the
output since `scanner.Err()` is never read; `scanner.Text()` is the line
without a trailing carriage return.  The state is the registry and the local
`count`. -/
def scanLoop {F : Type} (ParseFloat : GoString → Option F) (nodeName nodeType : GoString) :
    List GoString → Registry F → Nat → Run (Registry F × Nat)
  | [], registry, count => .returned (registry, count)
  | raw :: rest, registry, count =>
    if MaxScanTokenSize ≤ raw.length then .returned (registry, count)
    else
      let line := TrimSpace (dropCR raw)
      if line == [] || HasPrefix line (byte '#') || !Contains line (byte '=') then
        scanLoop ParseFloat nodeName nodeType rest registry count
      else
        match SplitN2 line (byte '=') with
        | [p0, p1] =>
          let key := metricPrefix ++ sanitize p0
          match ParseFloat (TrimSpace p1) with
          | none => scanLoop ParseFloat nodeName nodeType rest registry count
          | some val =>
            match MustRegister registry (newGauge key nodeName nodeType val) with
            | .panicked p => .panicked p
            | .returned registry1 =>
              scanLoop ParseFloat nodeName nodeType rest registry1 (count + 1)
        | _ => scanLoop ParseFloat nodeName nodeType rest registry count

/-- What launching the probe script does: `cmd.StdoutPipe()` fails, `cmd.Start()`
fails, or the process runs, its standard output is the given lines, and
`cmd.Wait()` returns `waitErr` (an error on a non-zero exit or when the 10
second timeout killed the process). -/
inductive ProbeRun where
  | pipeFailed (err : GoError)
  | startFailed (err : GoError)
  | ran (lines : List GoString) (waitErr : Option GoError)
  deriving DecidableEq, Repr

/-- What `runAndParseScript` leaves behind when it returns: the registry, the
local `count` (logged once the loop has run) and the returned error. -/
structure ScriptResult (F : Type) where
  registry : Registry F
  count : Nat
  err : Option GoError
  deriving DecidableEq, Repr

/-- Go `runAndParseScript`; `probe` is what running `scriptPath` does. -/
def runAndParseScript {F : Type} (ParseFloat : GoString → Option F) (probe : ProbeRun)
    (nodeName nodeType : GoString) (registry : Registry F) : Run (ScriptResult F) :=
  match probe with
  | .pipeFailed err => .returned { registry := registry, count := 0, err := some err }
  | .startFailed err => .returned { registry := registry, count := 0, err := some err }
  | .ran lines waitErr =>
    match scanLoop ParseFloat nodeName nodeType lines registry 0 with
    | .panicked p => .panicked p
    | .returned (registry1, count) =>
      .returned { registry := registry1, count := count, err := waitErr }

/-! ### The specification's reading of a probe output line -/

/-- A MetricPoint of the specification: name, value and constant labels. -/
structure MetricPoint (F : Type) where
  name : GoString
  value : F
  constLabels : List (GoString × GoString)
  deriving DecidableEq, Repr

/-- The MetricPoint that a registered gauge stands for. -/
def Gauge.toPoint {F : Type} (g : Gauge F) : MetricPoint F :=
  { name := g.name, value := g.value, constLabels := g.constLabels }

/-- The point of an accepted line, per the specification: the line, trimmed, is
non-empty, does not start with `#`, contains `=`, and its text after the first
`=`, trimmed, parses as a float; the point is named `edge_` followed by the
sanitized text before the first `=`, carries the parsed value and the constant
label `node = identity`.  Any other line has no point. -/
def acceptedPoint {F : Type} (parseFloat : GoString → Option F) (identity line : GoString) :
    Option (MetricPoint F) :=
  if isMeaningful line then
    (parseFloat (lineValue line)).map fun v =>
      { name := lit "edge_" ++ sanitize (beforeFirst (byte '=') (TrimSpace line))
        value := v
        constLabels := [(lit "node", identity)] }
  else none

/-- The points of the accepted lines of a probe output, in output order. -/
def acceptedPoints {F : Type} (parseFloat : GoString → Option F) (identity : GoString)
    (lines : List GoString) : List (MetricPoint F) :=
  lines.filterMap (acceptedPoint parseFloat identity)

/-- The gauge that the loop registers for a point: the point with the help text
`"Metric from " + nodeType`. -/
def gaugeOfPoint {F : Type} (nodeType : GoString) (p : MetricPoint F) : Gauge F :=
  { name := p.name
    help := lit "Metric from " ++ nodeType
    constLabels := p.constLabels
    value := p.value }

/-! ### A sample float parser -/

/-- A decimal number `± digits / 10 ^ scale`. -/
structure Decimal where
  negative : Bool
  digits : Nat
  scale : Nat
  deriving DecidableEq, Repr

/-- The value of a run of decimal digits, continuing from `acc`; `none` when a
byte is not a digit. -/
def digitsValue : GoString → Nat → Option Nat
  | [], acc => some acc
  | c :: rest, acc =>
    if '0'.toNat ≤ c.val ∧ c.val ≤ '9'.toNat then
      digitsValue rest (acc * 10 + (c.val - '0'.toNat))
    else none

/-- A sample instance of `strconv.ParseFloat`, used to instantiate the examples: it
reads plain decimal literals (optional sign, digits, optional `.` and digits, at
least one digit) and returns their exact decimal value.  The other forms that
Go accepts (exponents, hexadecimal, `Inf`, `NaN`, underscores) are outside the
sample and are rejected here. -/
def sampleParseFloat (s : GoString) : Option Decimal :=
  let neg := HasPrefix s (byte '-')
  let s1 := if HasPrefix s (byte '-') || HasPrefix s (byte '+') then s.drop 1 else s
  let intPart := beforeFirst (byte '.') s1
  let fracPart := afterFirst (byte '.') s1
  if intPart ++ fracPart = [] then none
  else
    (digitsValue (intPart ++ fracPart) 0).map fun n =>
      { negative := neg, digits := n, scale := fracPart.length }

/-! ## main: start-up -/

/-- Go `time.NewTicker`: panics on a non-positive interval. -/
def NewTicker (d : Duration) : Run Duration :=
  if d ≤ 0 then .panicked .nonPositiveTicker else .returned d

/-- What `main` settles into after start-up. -/
inductive Mode where
  | idle (nodeName nodeType : GoString)
  | active (nodeName nodeType scriptPath : GoString) (interval : Duration)
  deriving DecidableEq, Repr

/-- The start-up part of Go `main`, up to the construction of the ticker.
`envNodeName` is the value of `NODE_NAME`; `scriptMissing p` tells whether
`os.Stat(p)` reports that `p` does not exist. -/
def mainStartup (ParseDuration : GoString → Option Duration) (envNodeName : GoString)
    (conf : Option (List GoString)) (scriptMissing : GoString → Bool) : Run Mode :=
  let nodeName := if envNodeName = [] then lit "unknown" else envNodeName
  match parseNodeConfig ParseDuration conf nodeName with
  | .panicked p => .panicked p
  | .returned (nodeType, interval) =>
    let scriptPath := lit "/scripts/" ++ nodeType ++ lit ".sh"
    if scriptMissing scriptPath || nodeType == defaultType then
      .returned (.idle nodeName nodeType)
    else
      match NewTicker interval with
      | .panicked p => .panicked p
      | .returned d => .returned (.active nodeName nodeType scriptPath d)

/-! ## WriteToTextfile -/

/-- The state of the file system: the content of the file at each path, `none`
where there is no file. -/
structure FileSystem where
  file : GoString → Option GoString

/-- The state after the file at `p` is created or truncated and given `content`. -/
def FileSystem.write (fs : FileSystem) (p content : GoString) : FileSystem :=
  { file := fun q => if q = p then some content else fs.file q }

/-- The state after a successful `os.Remove(p)`. -/
def FileSystem.remove (fs : FileSystem) (p : GoString) : FileSystem :=
  { file := fun q => if q = p then none else fs.file q }

/-- The state after a successful `os.Rename(oldPath, newPath)`: the file replaces
whatever was at `newPath` and is gone from `oldPath`. -/
def FileSystem.rename (fs : FileSystem) (oldPath newPath : GoString) : FileSystem :=
  { file := fun q =>
      if q = newPath then fs.file oldPath else if q = oldPath then none else fs.file q }

/-- The operations of one call of `WriteToTextfile` that fail, each with its
error: `os.OpenFile` on the temporary path, the final `f.Close()`, `os.Rename`,
and the `os.Stat` and `os.Remove` of the deferred function.  A failing operation
leaves the file system as it was. -/
structure Faults where
  openFile : Option GoError
  close : Option GoError
  rename : Option GoError
  stat : Option GoError
  remove : Option GoError

/-- The temporary path: `fmt.Sprintf("%s.%d.%d", path, os.Getpid(),
runtime.NumGoroutine())`. -/
def tmpPathOf (path : GoString) (pid goroutines : Nat) : GoString :=
  path ++ [byte '.'] ++ (Nat.toDigits 10 pid).map byte ++ [byte '.']
    ++ (Nat.toDigits 10 goroutines).map byte

/-- The encoding loop: each metric family is encoded into the file in turn;
`encode` gives the text written for a family and the error of `enc.Encode`, if
any.  The loop stops at the first error, with what was written so far. -/
def encodeAll {MF : Type} (encode : MF → GoString × Option GoError) :
    List MF → GoString → GoString × Option GoError
  | [], written => (written, none)
  | mf :: rest, written =>
    match (encode mf).2 with
    | some err => (written ++ (encode mf).1, some err)
    | none => encodeAll encode rest (written ++ (encode mf).1)

/-- The body of `WriteToTextfile`, before the deferred function runs.  `gathered` is
the result of `gatherer.Gather()`. -/
def writeBody {MF : Type} (path tmpPath : GoString) (gathered : Except GoError (List MF))
    (encode : MF → GoString × Option GoError) (faults : Faults) (fs : FileSystem) :
    Option GoError × FileSystem :=
  match faults.openFile with
  | some err => (some err, fs)
  | none =>
    let fs1 := fs.write tmpPath []
    match gathered with
    | .error err => (some err, fs1)
    | .ok mfs =>
      let fs2 := fs1.write tmpPath (encodeAll encode mfs []).1
      match (encodeAll encode mfs []).2 with
      | some err => (some err, fs2)
      | none =>
        match faults.close with
        | some err => (some err, fs2)
        | none =>
          match faults.rename with
          | some err => (some err, fs2)
          | none => (none, fs2.rename tmpPath path)

/-- The deferred function of `WriteToTextfile`: when `os.Stat(tmpPath)` returns no
error, `os.Remove(tmpPath)`, whose error is discarded. -/
def deferredRemove (faults : Faults) (fs : FileSystem) (tmpPath : GoString) : FileSystem :=
  match faults.stat with
  | some _ => fs
  | none =>
    if (fs.file tmpPath).isSome then
      match faults.remove with
      | some _ => fs
      | none => fs.remove tmpPath
    else fs

/-- Go `WriteToTextfile`: the returned error and the file system it leaves.
`pid` and `goroutines` are `os.Getpid()` and `runtime.NumGoroutine()`. -/
def WriteToTextfile {MF : Type} (path : GoString) (pid goroutines : Nat)
    (gathered : Except GoError (List MF)) (encode : MF → GoString × Option GoError)
    (faults : Faults) (fs : FileSystem) : Option GoError × FileSystem :=
  let tmpPath := tmpPathOf path pid goroutines
  let r := writeBody path tmpPath gathered encode faults fs
  (r.1, deferredRemove faults r.2 tmpPath)

/-- A sample encoder, used to instantiate the examples: a family is its own text,
and encoding the family `bad` fails after writing nothing. -/
def sampleEncode (mf : GoString) : GoString × Option GoError :=
  if mf = lit "bad" then ([], some (lit "encode failed")) else (mf, none)

/-- A sample file system, used to instantiate the examples: a published snapshot
at `/d/m.prom` and a left-over temporary file at `/d/m.prom.7.3`. -/
def sampleFS : FileSystem :=
  { file := fun q =>
      if q = lit "/d/m.prom" then some (lit "old")
      else if q = lit "/d/m.prom.7.3" then some (lit "stale")
      else none }

/-! ## Theorems: decoding -/

theorem firstInfo_spec {b sz lo hi : Nat} (h : firstInfo b = some (sz, lo, hi)) :
    (sz = 2 ∨ sz = 3 ∨ sz = 4) ∧ 0x80 ≤ lo ∧ hi ≤ 0xBF := by
  unfold firstInfo at h
  split_ifs at h <;> simp only [Option.some.injEq, Prod.mk.injEq] at h <;>
    (obtain ⟨rfl, rfl, rfl⟩ := h; omega)

theorem DecodeRune_cons (s0 : Byte) (t : GoString) :
    DecodeRune (s0 :: t) =
      if s0.val < 0x80 then (s0.val, 1)
      else
        match firstInfo s0.val with
        | none => (RuneError, 1)
        | some (sz, lo, hi) =>
          if (s0 :: t).length < sz then (RuneError, 1)
          else if ((s0 :: t).getD 1 0).val < lo ∨ hi < ((s0 :: t).getD 1 0).val then
            (RuneError, 1)
          else if sz ≤ 2 then (s0.val % 32 * 64 + ((s0 :: t).getD 1 0).val % 64, 2)
          else if ((s0 :: t).getD 2 0).val < 0x80 ∨ 0xBF < ((s0 :: t).getD 2 0).val then
            (RuneError, 1)
          else if sz ≤ 3 then
            (s0.val % 16 * 4096 + ((s0 :: t).getD 1 0).val % 64 * 64
              + ((s0 :: t).getD 2 0).val % 64, 3)
          else if ((s0 :: t).getD 3 0).val < 0x80 ∨ 0xBF < ((s0 :: t).getD 3 0).val then
            (RuneError, 1)
          else
            (s0.val % 8 * 262144 + ((s0 :: t).getD 1 0).val % 64 * 4096
              + ((s0 :: t).getD 2 0).val % 64 * 64 + ((s0 :: t).getD 3 0).val % 64, 4) := rfl

/-- The width of a decoded rune is at least 1 and at most the length of the text. -/
theorem DecodeRune_width (s : GoString) (hs : s ≠ []) :
    1 ≤ (DecodeRune s).2 ∧ (DecodeRune s).2 ≤ s.length := by
  cases s with
  | nil => exact absurd rfl hs
  | cons s0 t =>
    rw [DecodeRune_cons]
    have hl : 1 ≤ (s0 :: t).length := by simp
    by_cases h0 : s0.val < 0x80
    · rw [if_pos h0]
      exact ⟨le_refl _, hl⟩
    · rw [if_neg h0]
      cases hf : firstInfo s0.val with
      | none => exact ⟨le_refl _, hl⟩
      | some info =>
        obtain ⟨sz, lo, hi⟩ := info
        have hsz := (firstInfo_spec hf).1
        simp only
        split_ifs <;> simp only <;> omega

theorem DecodeRune_ascii (s0 : Byte) (t : GoString) (h : s0.val < 0x80) :
    DecodeRune (s0 :: t) = (s0.val, 1) := by
  rw [DecodeRune_cons, if_pos h]

/-- Appending a byte that is no continuation byte does not change the first rune
of a non-empty text. -/
theorem DecodeRune_append (t : GoString) (c : Byte) (ht : t ≠ []) (hc : c.val < 0x80) :
    DecodeRune (t ++ [c]) = DecodeRune t := by
  cases t with
  | nil => exact absurd rfl ht
  | cons s0 t =>
    rw [List.cons_append, DecodeRune_cons, DecodeRune_cons]
    by_cases h0 : s0.val < 0x80
    · rw [if_pos h0, if_pos h0]
    · rw [if_neg h0, if_neg h0]
      cases hf : firstInfo s0.val with
      | none => rfl
      | some info =>
        obtain ⟨sz, lo, hi⟩ := info
        obtain ⟨hsz, hlo, hhi⟩ := firstInfo_spec hf
        simp only
        rcases t with _ | ⟨s1, _ | ⟨s2, _ | ⟨s3, rest⟩⟩⟩ <;>
          rcases hsz with rfl | rfl | rfl <;>
          simp only [List.nil_append, List.cons_append, List.length_cons, List.length_nil,
            List.length_append, List.getD_cons_zero, List.getD_cons_succ, List.getD_nil,
            Nat.reduceAdd, Nat.reduceLT, Nat.reduceLeDiff, if_true, if_false, Nat.lt_irrefl] <;>
          split_ifs <;> first | rfl | omega

/-! ## Theorems: TrimSpace -/

theorem trimLeftFuel_nil (n : Nat) : trimLeftFuel n [] = [] := by
  cases n <;> rfl

theorem trimLeftFuel_succ_cons (n : Nat) (s0 : Byte) (t : GoString) :
    trimLeftFuel (n + 1) (s0 :: t) =
      if IsSpace (DecodeRune (s0 :: t)).1 then
        trimLeftFuel n ((s0 :: t).drop (DecodeRune (s0 :: t)).2)
      else s0 :: t := rfl

theorem mem_of_mem_trimLeftFuel (n : Nat) (s : GoString) (b : Byte)
    (h : b ∈ trimLeftFuel n s) : b ∈ s := by
  induction n generalizing s with
  | zero => exact h
  | succ n ih =>
    cases s with
    | nil => rw [trimLeftFuel_nil] at h; exact h
    | cons s0 t =>
      rw [trimLeftFuel_succ_cons] at h
      split_ifs at h
      · exact List.mem_of_mem_drop (ih _ h)
      · exact h

theorem mem_of_mem_TrimRightSpace (s : GoString) (b : Byte) (h : b ∈ TrimRightSpace s) :
    b ∈ s := by
  unfold TrimRightSpace at h
  cases hi : lastIndexNotSpace s.length s with
  | none => rw [hi] at h; simp at h
  | some i =>
    rw [hi] at h
    simp only at h
    split_ifs at h <;> exact List.mem_of_mem_take h

/-- Every byte of the trimmed text is a byte of the text. -/
theorem mem_of_mem_TrimSpace (s : GoString) (b : Byte) (h : b ∈ TrimSpace s) : b ∈ s :=
  mem_of_mem_trimLeftFuel _ _ _ (mem_of_mem_TrimRightSpace _ _ h)

theorem trimLeftFuel_append_space (n : Nat) (t : GoString) (c : Byte) (hc : c.val < 0x80)
    (hsp : IsSpace c.val = true) (hn : t.length ≤ n) :
    trimLeftFuel (n + 1) (t ++ [c]) =
      if trimLeftFuel n t = [] then [] else trimLeftFuel n t ++ [c] := by
  induction n generalizing t with
  | zero =>
    have ht : t = [] := List.length_eq_zero.1 (Nat.le_zero.1 hn)
    subst ht
    rw [List.nil_append, trimLeftFuel_succ_cons, DecodeRune_ascii c [] hc]
    simp only [hsp, if_true]
    rfl
  | succ n ih =>
    cases t with
    | nil =>
      rw [List.nil_append, trimLeftFuel_succ_cons, DecodeRune_ascii c [] hc]
      simp only [hsp, if_true, trimLeftFuel_nil]
      rfl
    | cons s0 t =>
      have hw := DecodeRune_width (s0 :: t) (List.cons_ne_nil _ _)
      rw [List.cons_append, trimLeftFuel_succ_cons, ← List.cons_append,
        DecodeRune_append (s0 :: t) c (List.cons_ne_nil _ _) hc,
        trimLeftFuel_succ_cons n s0 t]
      by_cases hs : IsSpace (DecodeRune (s0 :: t)).1 = true
      · rw [if_pos hs, if_pos hs, List.drop_append_of_le_length hw.2]
        apply ih
        rw [List.length_drop]
        simp only [List.length_cons] at hn ⊢
        omega
      · rw [if_neg hs, if_neg hs, if_neg (List.cons_ne_nil _ _)]

theorem lastRuneStart_lt (s : GoString) (hs : s ≠ []) : lastRuneStart s < s.length := by
  have hl : 1 ≤ s.length := List.length_pos.2 hs
  unfold lastRuneStart
  split_ifs <;> omega

theorem DecodeLastRune_width_pos (s : GoString) (hs : s ≠ []) : 1 ≤ (DecodeLastRune s).2 := by
  have hl : 1 ≤ s.length := List.length_pos.2 hs
  have hst := lastRuneStart_lt s hs
  unfold DecodeLastRune
  split_ifs with h1 h2 h3
  · omega
  · exact le_refl _
  · exact le_refl _
  · simp only [ne_eq, not_not] at h3
    omega

theorem DecodeLastRune_append_ascii (u : GoString) (c : Byte) (hc : c.val < 0x80) :
    DecodeLastRune (u ++ [c]) = (c.val, 1) := by
  have hg : (u ++ [c]).getD ((u ++ [c]).length - 1) 0 = c := by
    rw [List.length_append, List.length_singleton, Nat.add_sub_cancel, List.getD_eq_getElem?_getD,
      List.getElem?_append_right (le_refl _)]
    simp
  unfold DecodeLastRune
  rw [hg, if_neg (by simp), if_pos hc]

theorem lastIndexNotSpace_succ_cons (n : Nat) (s0 : Byte) (t : GoString) :
    lastIndexNotSpace (n + 1) (s0 :: t) =
      if IsSpace (DecodeLastRune (s0 :: t)).1 then
        lastIndexNotSpace n ((s0 :: t).take ((s0 :: t).length - (DecodeLastRune (s0 :: t)).2))
      else some ((s0 :: t).length - (DecodeLastRune (s0 :: t)).2) := rfl

theorem lastIndexNotSpace_succ (n : Nat) (s : GoString) (hs : s ≠ []) :
    lastIndexNotSpace (n + 1) s =
      if IsSpace (DecodeLastRune s).1 then
        lastIndexNotSpace n (s.take (s.length - (DecodeLastRune s).2))
      else some (s.length - (DecodeLastRune s).2) := by
  cases s with
  | nil => exact absurd rfl hs
  | cons s0 t => exact lastIndexNotSpace_succ_cons n s0 t

theorem lastIndexNotSpace_append_space (n : Nat) (u : GoString) (c : Byte) (hc : c.val < 0x80)
    (hsp : IsSpace c.val = true) :
    lastIndexNotSpace (n + 1) (u ++ [c]) = lastIndexNotSpace n u := by
  rw [lastIndexNotSpace_succ n (u ++ [c]) (by simp), DecodeLastRune_append_ascii u c hc]
  simp only [hsp, if_true, List.length_append, List.length_singleton, Nat.add_sub_cancel,
    List.take_left']

theorem lastIndexNotSpace_lt (n : Nat) (s : GoString) (i : Nat)
    (h : lastIndexNotSpace n s = some i) : i < s.length := by
  induction n generalizing s with
  | zero => simp [lastIndexNotSpace] at h
  | succ n ih =>
    cases s with
    | nil => simp [lastIndexNotSpace] at h
    | cons s0 t =>
      rw [lastIndexNotSpace_succ_cons] at h
      have hw := DecodeLastRune_width_pos (s0 :: t) (List.cons_ne_nil _ _)
      split_ifs at h
      · have := ih _ h
        rw [List.length_take] at this
        omega
      · simp only [Option.some.injEq] at h
        simp only [List.length_cons] at h ⊢
        omega

theorem TrimRightSpace_append_space (u : GoString) (c : Byte) (hc : c.val < 0x80)
    (hsp : IsSpace c.val = true) : TrimRightSpace (u ++ [c]) = TrimRightSpace u := by
  unfold TrimRightSpace
  rw [List.length_append, List.length_singleton, lastIndexNotSpace_append_space _ u c hc hsp]
  cases hi : lastIndexNotSpace u.length u with
  | none => rfl
  | some i =>
    have hlt := lastIndexNotSpace_lt _ _ _ hi
    have hne : u.drop i ≠ [] := by
      intro h
      have := congrArg List.length h
      rw [List.length_drop] at this
      simp only [List.length_nil] at this
      omega
    have hw := DecodeRune_width (u.drop i) hne
    rw [List.length_drop] at hw
    have hg : (u ++ [c]).getD i 0 = u.getD i 0 := by
      rw [List.getD_eq_getElem?_getD, List.getD_eq_getElem?_getD, List.getElem?_append_left hlt]
    have hd : (u ++ [c]).drop i = u.drop i ++ [c] :=
      List.drop_append_of_le_length (Nat.le_of_lt hlt)
    simp only [hg, hd, DecodeRune_append (u.drop i) c hne hc]
    split_ifs
    · exact List.take_append_of_le_length (by omega)
    · exact List.take_append_of_le_length (by omega)

/-- A trailing ASCII white space byte does not change the trimmed text. -/
theorem TrimSpace_append_space (t : GoString) (c : Byte) (hc : c.val < 0x80)
    (hsp : IsSpace c.val = true) : TrimSpace (t ++ [c]) = TrimSpace t := by
  unfold TrimSpace
  rw [List.length_append, List.length_singleton,
    trimLeftFuel_append_space t.length t c hc hsp (le_refl _)]
  by_cases h : trimLeftFuel t.length t = []
  · rw [if_pos h, h]
  · rw [if_neg h, TrimRightSpace_append_space _ c hc hsp]

/-- The carriage return that the scanner drops is white space: trimming the
scanner's text is trimming the line. -/
theorem TrimSpace_dropCR (raw : GoString) : TrimSpace (dropCR raw) = TrimSpace raw := by
  unfold dropCR
  split_ifs with h
  · have hraw : raw = raw.dropLast ++ [byte '\r'] := by
      rcases List.eq_nil_or_concat raw with rfl | ⟨l, b, rfl⟩
      · simp at h
      · have hb : b = byte '\r' := by simpa using h
        rw [hb]
        simp
    conv_rhs => rw [hraw]
    exact (TrimSpace_append_space _ _ (by decide) (by decide)).symm
  · rfl

/-! ## Theorems: sanitize -/

/-- The range test of the mapping function accepts exactly `[A-Za-z0-9_:]`. -/
theorem sanitizeRune_keeps_iff (r : Nat) :
    (('a'.toNat ≤ r ∧ r ≤ 'z'.toNat) ∨ ('A'.toNat ≤ r ∧ r ≤ 'Z'.toNat)
      ∨ ('0'.toNat ≤ r ∧ r ≤ '9'.toNat) ∨ r = '_'.toNat ∨ r = ':'.toNat) ↔ isAllowed r := by
  unfold isAllowed
  have h1 : 'a'.toNat = 97 := rfl
  have h2 : 'z'.toNat = 122 := rfl
  have h3 : 'A'.toNat = 65 := rfl
  have h4 : 'Z'.toNat = 90 := rfl
  have h5 : '0'.toNat = 48 := rfl
  have h6 : '9'.toNat = 57 := rfl
  have h7 : '_'.toNat = 95 := rfl
  have h8 : ':'.toNat = 58 := rfl
  rw [h1, h2, h3, h4, h5, h6, h7, h8]
  have hl : allowedChars.map Char.toNat
      = List.range' 65 26 ++ List.range' 97 26 ++ List.range' 48 10 ++ [95, 58] := by
    decide
  rw [hl]
  simp only [List.mem_append, List.mem_range'_1, List.mem_cons, List.mem_singleton,
    List.not_mem_nil, or_false]
  omega

theorem sanitizeRune_of_allowed {r : Nat} (h : isAllowed r) : sanitizeRune r = r := by
  unfold sanitizeRune
  rw [if_pos ((sanitizeRune_keeps_iff r).2 h)]

theorem sanitizeRune_of_not_allowed {r : Nat} (h : ¬ isAllowed r) :
    sanitizeRune r = '_'.toNat := by
  unfold sanitizeRune
  rw [if_neg (fun hk => h ((sanitizeRune_keeps_iff r).1 hk))]

theorem isAllowed_underscore : isAllowed '_'.toNat := by decide

theorem isAllowed_sanitizeRune (r : Nat) : isAllowed (sanitizeRune r) := by
  by_cases h : isAllowed r
  · rw [sanitizeRune_of_allowed h]
    exact h
  · rw [sanitizeRune_of_not_allowed h]
    exact isAllowed_underscore

theorem lt_of_isAllowed {r : Nat} (h : isAllowed r) : r < 0x80 := by
  have hall : ∀ x ∈ allowedChars.map Char.toNat, x < 0x80 := by decide
  exact hall r h

theorem EncodeRune_of_le {r : Nat} (h : r ≤ 0x7F) : EncodeRune r = [Fin.ofNat r] := by
  unfold EncodeRune
  rw [if_pos h]

theorem val_ofNat_of_lt {r : Nat} (h : r < 0x80) : (Fin.ofNat r : Byte).val = r := by
  show r % 256 = r
  omega

/-- Every rune is replaced by the one byte of its image. -/
theorem sanitize_eq_map (s : GoString) :
    sanitize s = (runes s).map (fun r => (Fin.ofNat (sanitizeRune r) : Byte)) := by
  unfold sanitize Map
  generalize runes s = rs
  induction rs with
  | nil => rfl
  | cons r rs ih =>
    have hr := lt_of_isAllowed (isAllowed_sanitizeRune r)
    rw [List.flatMap_cons, List.map_cons, ih, EncodeRune_of_le (by omega)]
    rfl

theorem isAllowed_of_mem_sanitize {s : GoString} {b : Byte} (h : b ∈ sanitize s) :
    isAllowed b.val := by
  rw [sanitize_eq_map] at h
  obtain ⟨r, _, hr⟩ := List.mem_map.1 h
  rw [← hr, val_ofNat_of_lt (lt_of_isAllowed (isAllowed_sanitizeRune r))]
  exact isAllowed_sanitizeRune r

theorem rangeFuel_nil (n : Nat) : rangeFuel n [] = [] := by
  cases n <;> rfl

theorem rangeFuel_succ_cons (n : Nat) (s0 : Byte) (t : GoString) :
    rangeFuel (n + 1) (s0 :: t) =
      DecodeRune (s0 :: t) :: rangeFuel n ((s0 :: t).drop (DecodeRune (s0 :: t)).2) := rfl

/-- On a text of ASCII bytes `range` yields the bytes, each one byte wide. -/
theorem rangeFuel_ascii (n : Nat) (s : GoString) (hn : s.length ≤ n)
    (hs : ∀ b ∈ s, b.val < 0x80) : rangeFuel n s = s.map (fun b => (b.val, 1)) := by
  induction s generalizing n with
  | nil => rw [rangeFuel_nil]; rfl
  | cons s0 t ih =>
    cases n with
    | zero => simp at hn
    | succ n =>
      rw [rangeFuel_succ_cons, DecodeRune_ascii s0 t (hs s0 (List.mem_cons_self _ _))]
      simp only [List.drop_succ_cons, List.drop_zero, List.map_cons]
      rw [ih n (by simpa using hn) (fun b hb => hs b (List.mem_cons_of_mem _ hb))]

theorem runes_ascii (s : GoString) (hs : ∀ b ∈ s, b.val < 0x80) :
    runes s = s.map (fun b => b.val) := by
  unfold runes rangeRunes
  rw [rangeFuel_ascii _ s (le_refl _) hs, List.map_map]
  rfl

/-- The widths that `range` yields are positive and add up to the length. -/
theorem rangeFuel_widths (n : Nat) (s : GoString) (hn : s.length ≤ n) :
    (∀ d ∈ rangeFuel n s, 1 ≤ d.2) ∧ ((rangeFuel n s).map Prod.snd).sum = s.length := by
  induction n generalizing s with
  | zero =>
    have hs : s = [] := List.length_eq_zero.1 (Nat.le_zero.1 hn)
    subst hs
    exact ⟨by simp [rangeFuel], rfl⟩
  | succ n ih =>
    cases s with
    | nil => exact ⟨by simp [rangeFuel], rfl⟩
    | cons s0 t =>
      have hw := DecodeRune_width (s0 :: t) (List.cons_ne_nil _ _)
      have hlen : ((s0 :: t).drop (DecodeRune (s0 :: t)).2).length ≤ n := by
        rw [List.length_drop]
        simp only [List.length_cons] at hn ⊢
        omega
      obtain ⟨h1, h2⟩ := ih _ hlen
      rw [rangeFuel_succ_cons]
      constructor
      · intro d hd
        rcases List.mem_cons.1 hd with rfl | hd
        · exact hw.1
        · exact h1 d hd
      · rw [List.map_cons, List.sum_cons, h2, List.length_drop]
        omega

theorem length_le_sum_of_pos (l : List Nat) (h : ∀ x ∈ l, 1 ≤ x) :
    l.length ≤ l.sum ∧ (l.length = l.sum ↔ ∀ x ∈ l, x = 1) := by
  induction l with
  | nil => simp
  | cons a l ih =>
    obtain ⟨h1, h2⟩ := ih (fun x hx => h x (List.mem_cons_of_mem _ hx))
    have ha := h a (List.mem_cons_self _ _)
    rw [List.length_cons, List.sum_cons, List.forall_mem_cons, ← h2]
    omega

theorem sanitize_length_eq_runes (s : GoString) : (sanitize s).length = (rangeRunes s).length := by
  rw [sanitize_eq_map, List.length_map]
  unfold runes
  rw [List.length_map]

/-- C6: `sanitize s` is `s` with every character (rune, as `range` decodes it) of
`[A-Za-z0-9_:]` kept at its position and every other character replaced by `_`
at its position; hence all characters of the result lie in `[A-Za-z0-9_:]`. -/
theorem sanitize_pointwise (s : GoString) :
    (∀ i : Nat, (sanitize s)[i]? =
        ((runes s)[i]?).map (fun r => if isAllowed r then (Fin.ofNat r : Byte) else byte '_'))
      ∧ (sanitize s).all (fun b => decide (isAllowed b.val)) = true := by
  constructor
  · intro i
    rw [sanitize_eq_map, List.getElem?_map]
    cases (runes s)[i]? with
    | none => rfl
    | some r =>
      simp only [Option.map_some', Option.some.injEq]
      by_cases h : isAllowed r
      · rw [if_pos h, sanitizeRune_of_allowed h]
      · rw [if_neg h, sanitizeRune_of_not_allowed h]
        rfl
  · rw [List.all_eq_true]
    intro b hb
    exact decide_eq_true (isAllowed_of_mem_sanitize hb)

/-- C7 (as stated, refuted): for the two bytes C3 A9 that encode U+00E9 the result
is the single byte `_`: its `len` is 1 and the input's is 2. -/
theorem sanitize_len_counterexample :
    (sanitize [0xC3, 0xA9]).length ≠ ([0xC3, 0xA9] : GoString).length
      ∧ sanitize [0xC3, 0xA9] = [byte '_'] := by
  decide

/-- C7 (amended): `len(sanitize(s))` is the number of runes of `s` as `range`
decodes them, an invalid byte counting as one rune; it is at most `len(s)`, and
equal to `len(s)` exactly when every rune of `s` is one byte wide. -/
theorem sanitize_length (s : GoString) :
    (sanitize s).length = (rangeRunes s).length
      ∧ (sanitize s).length ≤ s.length
      ∧ ((sanitize s).length = s.length ↔ ∀ d ∈ rangeRunes s, d.2 = 1) := by
  obtain ⟨hpos, hsum⟩ := rangeFuel_widths s.length s (le_refl _)
  have hl := length_le_sum_of_pos ((rangeRunes s).map Prod.snd) (by
    intro x hx
    obtain ⟨d, hd, rfl⟩ := List.mem_map.1 hx
    exact hpos d hd)
  have hsum2 : ((rangeRunes s).map Prod.snd).sum = s.length := hsum
  rw [List.length_map, hsum2] at hl
  refine ⟨sanitize_length_eq_runes s, ?_, ?_⟩
  · rw [sanitize_length_eq_runes]
    exact hl.1
  · rw [sanitize_length_eq_runes, hl.2]
    constructor
    · intro h d hd
      exact h d.2 (List.mem_map_of_mem _ hd)
    · intro h x hx
      obtain ⟨d, hd, rfl⟩ := List.mem_map.1 hx
      exact h d hd

/-- C8: `sanitize` is idempotent. -/
theorem sanitize_idempotent (x : GoString) : sanitize (sanitize x) = sanitize x := by
  have hascii : ∀ b ∈ sanitize x, b.val < 0x80 :=
    fun b hb => lt_of_isAllowed (isAllowed_of_mem_sanitize hb)
  rw [sanitize_eq_map (sanitize x), runes_ascii _ hascii, List.map_map]
  conv_rhs => rw [← List.map_id (sanitize x)]
  apply List.map_congr_left
  intro b hb
  show (Fin.ofNat (sanitizeRune b.val) : Byte) = b
  rw [sanitizeRune_of_allowed (isAllowed_of_mem_sanitize hb)]
  apply Fin.ext
  exact val_ofNat_of_lt (hascii b hb)

/-! ## Theorems: string primitives -/

theorem Index_eq_none_iff (s : GoString) (c : Byte) : Index s c = none ↔ c ∉ s := by
  induction s with
  | nil => simp [Index]
  | cons d rest ih =>
    unfold Index
    by_cases h : d = c
    · simp [h]
    · have h2 : ¬ c = d := fun e => h e.symm
      simp [h, h2, ih]

theorem Contains_iff (s : GoString) (c : Byte) : Contains s c = true ↔ c ∈ s := by
  unfold Contains
  rw [Option.isSome_iff_ne_none, ne_eq, Index_eq_none_iff, not_not]

theorem HasPrefix_iff (s : GoString) (c : Byte) : HasPrefix s c = true ↔ s.head? = some c := by
  cases s with
  | nil => simp [HasPrefix]
  | cons d rest => simp [HasPrefix]

theorem Index_split (s : GoString) (c : Byte) (i : Nat) (h : Index s c = some i) :
    s.take i = beforeFirst c s ∧ s.drop (i + 1) = afterFirst c s := by
  induction s generalizing i with
  | nil => simp [Index] at h
  | cons d rest ih =>
    unfold Index at h
    by_cases hd : d = c
    · rw [if_pos hd] at h
      injection h with h
      subst h
      simp [beforeFirst, afterFirst, hd]
    · rw [if_neg hd] at h
      cases hi : Index rest c with
      | none => rw [hi] at h; simp at h
      | some j =>
        rw [hi] at h
        simp only [Option.map_some', Option.some.injEq] at h
        subst h
        obtain ⟨h1, h2⟩ := ih j hi
        simp [beforeFirst, afterFirst, hd] at h1 h2 ⊢
        exact ⟨h1, h2⟩

theorem SplitN2_of_mem (s : GoString) (c : Byte) (h : c ∈ s) :
    SplitN2 s c = [beforeFirst c s, afterFirst c s] := by
  unfold SplitN2
  cases hi : Index s c with
  | none => exact absurd h ((Index_eq_none_iff s c).1 hi)
  | some i =>
    obtain ⟨h1, h2⟩ := Index_split s c i hi
    simp [h1, h2]

/-- The guard of both scanning loops skips exactly the lines that are not meaningful. -/
theorem skip_guard_iff (raw : GoString) :
    (TrimSpace (dropCR raw) == [] || HasPrefix (TrimSpace (dropCR raw)) (byte '#')
        || !Contains (TrimSpace (dropCR raw)) (byte '=')) = true ↔ ¬ isMeaningful raw := by
  unfold isMeaningful
  rw [TrimSpace_dropCR]
  generalize TrimSpace raw = line
  rw [Bool.or_eq_true, Bool.or_eq_true, beq_iff_eq, HasPrefix_iff, Bool.not_eq_true',
    ← Bool.not_eq_true, Contains_iff]
  tauto

theorem longLine_length : longLine.length = 65536 := List.length_replicate _ _

theorem longLine_too_long : MaxScanTokenSize ≤ longLine.length := by
  rw [longLine_length]
  unfold MaxScanTokenSize
  norm_num

/-- The sample line of 64 KiB of `x` is not a meaningful line. -/
theorem longLine_not_meaningful : ¬ isMeaningful longLine := by
  intro h
  have hx := List.eq_of_mem_replicate (mem_of_mem_TrimSpace _ _ h.2.2)
  revert hx
  decide

/-! ## Theorems: parseNodeConfig -/

/-- The scan ends, with the defaults, at a line that does not fit the buffer. -/
theorem parseNodeConfigLoop_long (pd : GoString → Option Duration) (nodeName raw : GoString)
    (rest : List GoString) (h : MaxScanTokenSize ≤ raw.length) :
    parseNodeConfigLoop pd nodeName (raw :: rest) = .returned (defaultType, defaultInterval) := by
  rw [parseNodeConfigLoop, if_pos h]

theorem parseNodeConfigLoop_skip (pd : GoString → Option Duration) (nodeName raw : GoString)
    (rest : List GoString) (hlen : raw.length < MaxScanTokenSize)
    (h : ¬ matchesIdentity raw nodeName) :
    parseNodeConfigLoop pd nodeName (raw :: rest) = parseNodeConfigLoop pd nodeName rest := by
  rw [parseNodeConfigLoop, if_neg (Nat.not_le.2 hlen)]
  by_cases hm : isMeaningful raw
  · have hg : (TrimSpace (dropCR raw) == [] || HasPrefix (TrimSpace (dropCR raw)) (byte '#')
        || !Contains (TrimSpace (dropCR raw)) (byte '=')) = false := by
      rw [← Bool.not_eq_true, skip_guard_iff]
      exact not_not.2 hm
    have hk : ¬ TrimSpace (beforeFirst (byte '=') (TrimSpace raw)) = nodeName :=
      fun e => h ⟨hm, e⟩
    simp only [hg]
    simp only [TrimSpace_dropCR, SplitN2_of_mem _ _ hm.2.2]
    simp [hk]
  · have hg := (skip_guard_iff raw).2 hm
    simp only [hg]
    simp

theorem parseNodeConfigLoop_hit (pd : GoString → Option Duration) (nodeName raw : GoString)
    (rest : List GoString) (hlen : raw.length < MaxScanTokenSize)
    (h : matchesIdentity raw nodeName) :
    parseNodeConfigLoop pd nodeName (raw :: rest) =
      if byte ':' ∈ lineValue raw then
        match pd (afterFirst (byte ':') (lineValue raw)) with
        | none => .returned (beforeFirst (byte ':') (lineValue raw), defaultInterval)
        | some interval => .returned (beforeFirst (byte ':') (lineValue raw), interval)
      else .returned (lineValue raw, defaultInterval) := by
  rw [parseNodeConfigLoop, if_neg (Nat.not_le.2 hlen)]
  obtain ⟨hm, hk⟩ := h
  have hg : (TrimSpace (dropCR raw) == [] || HasPrefix (TrimSpace (dropCR raw)) (byte '#')
      || !Contains (TrimSpace (dropCR raw)) (byte '=')) = false := by
    rw [← Bool.not_eq_true, skip_guard_iff]
    exact not_not.2 hm
  unfold lineKey at hk
  simp only [hg]
  simp only [TrimSpace_dropCR, SplitN2_of_mem _ _ hm.2.2]
  by_cases hc : byte ':' ∈ lineValue raw
  · have hc2 := hc
    unfold lineValue at hc2
    simp [hk, (Contains_iff _ _).2 hc2, SplitN2_of_mem _ _ hc2, lineValue]
    rw [if_pos hc2]
  · have hc2 := hc
    unfold lineValue at hc2
    have hc3 : Contains (TrimSpace (afterFirst (byte '=') (TrimSpace raw))) (byte ':')
        = false := by
      rw [← Bool.not_eq_true, Contains_iff]
      exact hc2
    simp [hk, hc3, lineValue]
    rw [if_neg hc2]

theorem parseNodeConfigLoop_skip_all (pd : GoString → Option Duration) (nodeName : GoString)
    (pre rest : List GoString) (hlen : ∀ l ∈ pre, l.length < MaxScanTokenSize)
    (h : ∀ l ∈ pre, ¬ matchesIdentity l nodeName) :
    parseNodeConfigLoop pd nodeName (pre ++ rest) = parseNodeConfigLoop pd nodeName rest := by
  induction pre with
  | nil => rfl
  | cons l pre ih =>
    rw [List.cons_append, parseNodeConfigLoop_skip pd nodeName l _
      (hlen l (List.mem_cons_self _ _)) (h l (List.mem_cons_self _ _))]
    exact ih (fun l' hl' => hlen l' (List.mem_cons_of_mem _ hl'))
      (fun l' hl' => h l' (List.mem_cons_of_mem _ hl'))

theorem parseNodeConfigLoop_no_match (pd : GoString → Option Duration) (nodeName : GoString)
    (lines : List GoString) (h : ∀ l ∈ lines, ¬ matchesIdentity l nodeName) :
    parseNodeConfigLoop pd nodeName lines = .returned (defaultType, defaultInterval) := by
  induction lines with
  | nil => rfl
  | cons l lines ih =>
    by_cases hlen : l.length < MaxScanTokenSize
    · rw [parseNodeConfigLoop_skip pd nodeName l _ hlen (h l (List.mem_cons_self _ _))]
      exact ih (fun l' hl' => h l' (List.mem_cons_of_mem _ hl'))
    · exact parseNodeConfigLoop_long pd nodeName l _ (Nat.not_lt.1 hlen)

/-- C3 (as stated, refuted): a line of 64 KiB that is not for `nodeA`, followed by
the line `nodeA=compute:30s`, which is then the first line for `nodeA`, with
value `compute:30s` and `30s` parsing as a duration: the scanner stops at the long
line and `parseNodeConfig` returns `(default, 15s)`, not `(compute, 30s)`. -/
theorem parseNodeConfig_first_match_counterexample :
    (∀ l ∈ [longLine], ¬ matchesIdentity l (lit "nodeA"))
      ∧ matchesIdentity (lit "nodeA=compute:30s") (lit "nodeA")
      ∧ byte ':' ∈ lineValue (lit "nodeA=compute:30s")
      ∧ beforeFirst (byte ':') (lineValue (lit "nodeA=compute:30s")) = lit "compute"
      ∧ afterFirst (byte ':') (lineValue (lit "nodeA=compute:30s")) = lit "30s"
      ∧ sampleParseDuration (lit "30s") = some 30000000000
      ∧ parseNodeConfig sampleParseDuration
          (some ([longLine] ++ lit "nodeA=compute:30s" :: [])) (lit "nodeA")
          = .returned (lit "default", 15000000000)
      ∧ parseNodeConfig sampleParseDuration
          (some ([longLine] ++ lit "nodeA=compute:30s" :: [])) (lit "nodeA")
          ≠ .returned (lit "compute", 30000000000) := by
  have hrun : parseNodeConfig sampleParseDuration
      (some ([longLine] ++ lit "nodeA=compute:30s" :: [])) (lit "nodeA")
      = .returned (lit "default", 15000000000) := by
    show parseNodeConfigLoop sampleParseDuration (lit "nodeA")
      (longLine :: [lit "nodeA=compute:30s"]) = _
    rw [parseNodeConfigLoop_long _ _ _ _ longLine_too_long]
    rfl
  refine ⟨?_, by decide, by decide, by decide, by decide, by decide, hrun, ?_⟩
  · intro l hl
    rw [List.mem_singleton.1 hl]
    exact fun h => longLine_not_meaningful h.1
  · rw [hrun]
    decide

/-- C3 (amended): when every line up to and including the first line for the
identity is shorter than 64 KiB, and that line has a value `role:intervalText`
(cut at its first `:`) whose `intervalText` parses as the duration `d`,
`parseNodeConfig` returns `(role, d)`, whatever lines follow it. -/
theorem parseNodeConfig_first_match (pd : GoString → Option Duration)
    (pre post : List GoString) (L identity role intervalText : GoString) (d : Duration)
    (hshort : ∀ l ∈ pre ++ [L], l.length < 64 * 1024)
    (hpre : ∀ l ∈ pre, ¬ matchesIdentity l identity)
    (hL : matchesIdentity L identity)
    (hcolon : byte ':' ∈ lineValue L)
    (hrole : beforeFirst (byte ':') (lineValue L) = role)
    (hinterval : afterFirst (byte ':') (lineValue L) = intervalText)
    (hd : pd intervalText = some d) :
    parseNodeConfig pd (some (pre ++ L :: post)) identity = .returned (role, d) := by
  show parseNodeConfigLoop pd identity (pre ++ L :: post) = _
  rw [parseNodeConfigLoop_skip_all pd identity pre _
      (fun l hl => hshort l (List.mem_append_left _ hl)) hpre,
    parseNodeConfigLoop_hit pd identity L post
      (hshort L (List.mem_append_right _ (List.mem_singleton_self _))) hL,
    if_pos hcolon, hinterval, hd, hrole]

/-- C3 (amended), at concrete inputs: the line `nodeA=compute:30s` resolves `nodeA`
to `(compute, 30s)`, also between other lines, with a carriage return at its
end, and before a later line for `nodeA`. -/
theorem parseNodeConfig_first_match_witness :
    parseNodeConfig sampleParseDuration (some ([] ++ lit "nodeA=compute:30s" :: []))
        (lit "nodeA") = .returned (lit "compute", 30000000000)
      ∧ parseNodeConfig sampleParseDuration
          (some ([lit "# roles", lit "nodeB=storage:1m", lit ""]
            ++ lit "  nodeA = compute:30s \r" :: [lit "nodeA=storage:1h", longLine]))
          (lit "nodeA") = .returned (lit "compute", 30000000000) :=
  ⟨parseNodeConfig_first_match sampleParseDuration [] [] (lit "nodeA=compute:30s")
      (lit "nodeA") (lit "compute") (lit "30s") 30000000000
      (by decide) (by decide) (by decide) (by decide) (by decide) (by decide) (by decide),
    parseNodeConfig_first_match sampleParseDuration
      [lit "# roles", lit "nodeB=storage:1m", lit ""] [lit "nodeA=storage:1h", longLine]
      (lit "  nodeA = compute:30s \r") (lit "nodeA") (lit "compute") (lit "30s") 30000000000
      (by decide) (by decide) (by decide) (by decide) (by decide) (by decide) (by decide)⟩

/-- C4 (as stated, refuted): a line of 64 KiB that is not for `nodeB`, followed by
the line `nodeB=compute:bogus`, which is then the first line for `nodeB`, with
value `compute:bogus` and `bogus` not parsing as a duration: the scanner stops at
the long line and `parseNodeConfig` returns `(default, 15s)`, not
`(compute, 15s)`. -/
theorem parseNodeConfig_bad_interval_counterexample :
    (∀ l ∈ [longLine], ¬ matchesIdentity l (lit "nodeB"))
      ∧ matchesIdentity (lit "nodeB=compute:bogus") (lit "nodeB")
      ∧ byte ':' ∈ lineValue (lit "nodeB=compute:bogus")
      ∧ beforeFirst (byte ':') (lineValue (lit "nodeB=compute:bogus")) = lit "compute"
      ∧ afterFirst (byte ':') (lineValue (lit "nodeB=compute:bogus")) = lit "bogus"
      ∧ sampleParseDuration (lit "bogus") = none
      ∧ parseNodeConfig sampleParseDuration
          (some ([longLine] ++ lit "nodeB=compute:bogus" :: [])) (lit "nodeB")
          = .returned (lit "default", 15000000000)
      ∧ parseNodeConfig sampleParseDuration
          (some ([longLine] ++ lit "nodeB=compute:bogus" :: [])) (lit "nodeB")
          ≠ .returned (lit "compute", 15000000000) := by
  have hrun : parseNodeConfig sampleParseDuration
      (some ([longLine] ++ lit "nodeB=compute:bogus" :: [])) (lit "nodeB")
      = .returned (lit "default", 15000000000) := by
    show parseNodeConfigLoop sampleParseDuration (lit "nodeB")
      (longLine :: [lit "nodeB=compute:bogus"]) = _
    rw [parseNodeConfigLoop_long _ _ _ _ longLine_too_long]
    rfl
  refine ⟨?_, by decide, by decide, by decide, by decide, by decide, hrun, ?_⟩
  · intro l hl
    rw [List.mem_singleton.1 hl]
    exact fun h => longLine_not_meaningful h.1
  · rw [hrun]
    decide

/-- C4 (amended): when every line up to and including the first line for the
identity is shorter than 64 KiB, and that line has a value `role:intervalText`
whose `intervalText` does not parse as a duration, `parseNodeConfig` returns
`(role, 15s)`: the role is kept and only the interval falls back. -/
theorem parseNodeConfig_bad_interval (pd : GoString → Option Duration)
    (pre post : List GoString) (L identity role intervalText : GoString)
    (hshort : ∀ l ∈ pre ++ [L], l.length < 64 * 1024)
    (hpre : ∀ l ∈ pre, ¬ matchesIdentity l identity)
    (hL : matchesIdentity L identity)
    (hcolon : byte ':' ∈ lineValue L)
    (hrole : beforeFirst (byte ':') (lineValue L) = role)
    (hinterval : afterFirst (byte ':') (lineValue L) = intervalText)
    (hd : pd intervalText = none) :
    parseNodeConfig pd (some (pre ++ L :: post)) identity
      = .returned (role, (15000000000 : Duration)) := by
  show parseNodeConfigLoop pd identity (pre ++ L :: post) = _
  rw [parseNodeConfigLoop_skip_all pd identity pre _
      (fun l hl => hshort l (List.mem_append_left _ hl)) hpre,
    parseNodeConfigLoop_hit pd identity L post
      (hshort L (List.mem_append_right _ (List.mem_singleton_self _))) hL,
    if_pos hcolon, hinterval, hd, hrole]
  rfl

/-- C4 (amended), at concrete inputs: the line `nodeB=compute:bogus` resolves `nodeB`
to `(compute, 15s)`. -/
theorem parseNodeConfig_bad_interval_witness :
    parseNodeConfig sampleParseDuration (some ([] ++ lit "nodeB=compute:bogus" :: []))
        (lit "nodeB") = .returned (lit "compute", 15000000000)
      ∧ parseNodeConfig sampleParseDuration
          (some ([lit "nodeA=compute:30s"]
            ++ lit "nodeB=compute: 30s" :: [lit "nodeB=compute:30s"]))
          (lit "nodeB") = .returned (lit "compute", 15000000000) :=
  ⟨parseNodeConfig_bad_interval sampleParseDuration [] [] (lit "nodeB=compute:bogus")
      (lit "nodeB") (lit "compute") (lit "bogus")
      (by decide) (by decide) (by decide) (by decide) (by decide) (by decide) (by decide),
    parseNodeConfig_bad_interval sampleParseDuration
      [lit "nodeA=compute:30s"] [lit "nodeB=compute:30s"]
      (lit "nodeB=compute: 30s") (lit "nodeB") (lit "compute") (lit " 30s")
      (by decide) (by decide) (by decide) (by decide) (by decide) (by decide) (by decide)⟩

/-- C5: when no meaningful line has the identity as its trimmed text before the
first `=`, `parseNodeConfig` returns exactly `(default, 15s)`. -/
theorem parseNodeConfig_no_match (pd : GoString → Option Duration)
    (lines : List GoString) (identity : GoString)
    (h : ∀ l ∈ lines, ¬ matchesIdentity l identity) :
    parseNodeConfig pd (some lines) identity
      = .returned (lit "default", (15000000000 : Duration)) := by
  show parseNodeConfigLoop pd identity lines = _
  rw [parseNodeConfigLoop_no_match pd identity lines h]
  rfl

/-- C5, at a concrete input: a configuration whose lines for `nodeC` are a comment,
a line without `=` and lines of other nodes resolves `nodeC` to `(default, 15s)`. -/
theorem parseNodeConfig_no_match_witness :
    parseNodeConfig sampleParseDuration
        (some [lit "#nodeC=compute:30s", lit "nodeC", lit "",
          lit "nodeA=compute:30s", lit "nodeCC=storage"])
        (lit "nodeC") = .returned (lit "default", 15000000000) :=
  parseNodeConfig_no_match sampleParseDuration
    [lit "#nodeC=compute:30s", lit "nodeC", lit "",
      lit "nodeA=compute:30s", lit "nodeCC=storage"]
    (lit "nodeC") (by decide)

/-- C10 (the code at the failing inputs): for the matching lines `nodeA=compute:0s`
and `nodeA=compute:-5s` the returned interval is `0` and `-5s`, not greater than
zero, and with the probe script present the start-up of `main` panics in
`time.NewTicker`. -/
theorem parseNodeConfig_nonpositive_interval :
    parseNodeConfig sampleParseDuration (some [lit "nodeA=compute:0s"]) (lit "nodeA")
        = .returned (lit "compute", 0)
      ∧ parseNodeConfig sampleParseDuration (some [lit "nodeA=compute:-5s"]) (lit "nodeA")
        = .returned (lit "compute", -5000000000)
      ∧ mainStartup sampleParseDuration (lit "nodeA") (some [lit "nodeA=compute:0s"])
          (fun _ => false) = .panicked .nonPositiveTicker
      ∧ mainStartup sampleParseDuration (lit "nodeA") (some [lit "nodeA=compute:-5s"])
          (fun _ => false) = .panicked .nonPositiveTicker := by
  decide

/-! ## Theorems: runAndParseScript -/

theorem toPoint_gaugeOfPoint {F : Type} (nodeType : GoString) (p : MetricPoint F) :
    (gaugeOfPoint nodeType p).toPoint = p := rfl

theorem map_toPoint_gaugeOfPoint {F : Type} (nodeType : GoString) (ps : List (MetricPoint F)) :
    (ps.map (gaugeOfPoint nodeType)).map Gauge.toPoint = ps := by
  induction ps with
  | nil => rfl
  | cons p ps ih =>
    rw [List.map_cons, List.map_cons, ih, toPoint_gaugeOfPoint]

theorem constLabels_of_acceptedPoint {F : Type} {pf : GoString → Option F}
    {identity line : GoString} {p : MetricPoint F} (h : acceptedPoint pf identity line = some p) :
    p.constLabels = [(lit "node", identity)] := by
  unfold acceptedPoint at h
  split at h
  · cases hv : pf (lineValue line) with
    | none => rw [hv] at h; simp at h
    | some v =>
      rw [hv] at h
      simp only [Option.map_some', Option.some.injEq] at h
      rw [← h]
  · simp at h

theorem name_of_acceptedPoint {F : Type} {pf : GoString → Option F}
    {identity line : GoString} {p : MetricPoint F} (h : acceptedPoint pf identity line = some p) :
    ∃ k, p.name = metricPrefix ++ sanitize k := by
  unfold acceptedPoint at h
  split at h
  · cases hv : pf (lineValue line) with
    | none => rw [hv] at h; simp at h
    | some v =>
      rw [hv] at h
      simp only [Option.map_some', Option.some.injEq] at h
      rw [← h]
      exact ⟨_, rfl⟩
  · simp at h

/-- Every name the loop builds passes the metric-name check of the registry. -/
theorem IsValidMetricName_prefixed (k : GoString) :
    IsValidMetricName (metricPrefix ++ sanitize k) = true := by
  have hfix : ∀ b ∈ metricPrefix, isAllowed b.val := by
    intro b hb
    have hb2 : b = 101 ∨ b = 100 ∨ b = 103 ∨ b = 101 ∨ b = 95 := by
      simpa [metricPrefix, lit, EncodeRune] using hb
    rcases hb2 with rfl | rfl | rfl | rfl | rfl <;> decide
  have hallowed : ∀ b ∈ metricPrefix ++ sanitize k, isAllowed b.val := by
    intro b hb
    rcases List.mem_append.1 hb with h | h
    · exact hfix b h
    · exact isAllowed_of_mem_sanitize h
  have hrunes : runes (metricPrefix ++ sanitize k)
      = 'e'.toNat :: (lit "dge_" ++ sanitize k).map (fun b => b.val) := by
    rw [runes_ascii _ (fun b hb => lt_of_isAllowed (hallowed b hb))]
    rfl
  unfold IsValidMetricName
  rw [hrunes]
  simp only
  rw [Bool.and_eq_true, List.all_eq_true]
  refine ⟨by decide, ?_⟩
  intro r hr
  obtain ⟨b, hb, rfl⟩ := List.mem_map.1 hr
  have hb2 : b ∈ metricPrefix ++ sanitize k := by
    show b ∈ byte 'e' :: (lit "dge_" ++ sanitize k)
    exact List.mem_cons_of_mem _ hb
  have hk := (sanitizeRune_keeps_iff b.val).2 (hallowed b hb2)
  simp only [Bool.or_eq_true, Bool.and_eq_true, decide_eq_true_eq]
  rcases hk with h | h | h | h | h
  · exact Or.inl (Or.inl (Or.inl (Or.inl h)))
  · exact Or.inl (Or.inl (Or.inl (Or.inr h)))
  · exact Or.inr h
  · exact Or.inl (Or.inl (Or.inr h))
  · exact Or.inl (Or.inr h)

/-- The descriptor of a gauge of the loop is valid when the node name is valid
UTF-8. -/
theorem descriptorValid_gaugeOfPoint {F : Type} (nodeType identity k : GoString)
    (p : MetricPoint F) (hname : p.name = metricPrefix ++ sanitize k)
    (hlabels : p.constLabels = [(lit "node", identity)])
    (hvalid : ValidString identity = true) :
    descriptorValid (gaugeOfPoint nodeType p) = true := by
  unfold descriptorValid
  show (IsValidMetricName p.name && p.constLabels.all (fun kv => checkLabelName kv.1)
    && p.constLabels.all (fun kv => ValidString kv.2)) = true
  rw [hname, hlabels, IsValidMetricName_prefixed]
  simp only [List.all_cons, List.all_nil, Bool.and_true, Bool.true_and, hvalid]
  decide

/-- One iteration of the loop on a line that fits the scanner's buffer, in terms
of the accepted point of the line. -/
theorem scanLoop_cons {F : Type} (pf : GoString → Option F) (nodeName nodeType raw : GoString)
    (rest : List GoString) (registry : Registry F) (count : Nat)
    (hlen : raw.length < MaxScanTokenSize) :
    scanLoop pf nodeName nodeType (raw :: rest) registry count =
      match acceptedPoint pf nodeName raw with
      | none => scanLoop pf nodeName nodeType rest registry count
      | some p =>
        match MustRegister registry (gaugeOfPoint nodeType p) with
        | .panicked e => .panicked e
        | .returned registry1 => scanLoop pf nodeName nodeType rest registry1 (count + 1) := by
  rw [scanLoop, if_neg (Nat.not_le.2 hlen)]
  unfold acceptedPoint
  by_cases hm : isMeaningful raw
  · have hg : (TrimSpace (dropCR raw) == [] || HasPrefix (TrimSpace (dropCR raw)) (byte '#')
        || !Contains (TrimSpace (dropCR raw)) (byte '=')) = false := by
      rw [← Bool.not_eq_true, skip_guard_iff]
      exact not_not.2 hm
    simp only [hg]
    simp only [TrimSpace_dropCR, SplitN2_of_mem _ _ hm.2.2, if_pos hm, lineValue]
    cases hv : pf (TrimSpace (afterFirst (byte '=') (TrimSpace raw))) with
    | none => simp
    | some v => simp [newGauge, gaugeOfPoint, metricPrefix]
  · have hg := (skip_guard_iff raw).2 hm
    simp only [hg, if_neg hm]
    simp

/-- The scan ends at a line that does not fit the buffer. -/
theorem scanLoop_long {F : Type} (pf : GoString → Option F) (nodeName nodeType raw : GoString)
    (rest : List GoString) (registry : Registry F) (count : Nat)
    (h : MaxScanTokenSize ≤ raw.length) :
    scanLoop pf nodeName nodeType (raw :: rest) registry count = .returned (registry, count) := by
  rw [scanLoop, if_pos h]

theorem MustRegister_fresh {F : Type} (nodeType : GoString) (acc : List (MetricPoint F))
    (p : MetricPoint F) (hvalid : descriptorValid (gaugeOfPoint nodeType p) = true)
    (hfresh : p.name ∉ acc.map (fun q => q.name)) :
    MustRegister (acc.map (gaugeOfPoint nodeType)) (gaugeOfPoint nodeType p)
      = .returned ((acc ++ [p]).map (gaugeOfPoint nodeType)) := by
  unfold MustRegister
  have h2 : (acc.map (gaugeOfPoint nodeType)).any
      (fun h => sameDescriptor h (gaugeOfPoint nodeType p)) = false := by
    rw [List.any_eq_false]
    intro h hh
    obtain ⟨q, hq, rfl⟩ := List.mem_map.1 hh
    intro hs
    unfold sameDescriptor at hs
    rw [Bool.and_eq_true, beq_iff_eq] at hs
    apply hfresh
    rw [List.mem_map]
    exact ⟨q, hq, hs.1⟩
  rw [hvalid, h2]
  simp

theorem MustRegister_duplicate {F : Type} (nodeType identity : GoString)
    (acc : List (MetricPoint F)) (p : MetricPoint F)
    (hacc : ∀ q ∈ acc, q.constLabels = [(lit "node", identity)])
    (hp : p.constLabels = [(lit "node", identity)])
    (hdup : p.name ∈ acc.map (fun q => q.name)) :
    MustRegister (acc.map (gaugeOfPoint nodeType)) (gaugeOfPoint nodeType p)
      = .panicked (.registerFailed p.name) := by
  unfold MustRegister
  by_cases hv : descriptorValid (gaugeOfPoint nodeType p) = true
  · have h2 : (acc.map (gaugeOfPoint nodeType)).any
        (fun h => sameDescriptor h (gaugeOfPoint nodeType p)) = true := by
      rw [List.any_eq_true]
      obtain ⟨q, hq, hqn⟩ := List.mem_map.1 hdup
      refine ⟨gaugeOfPoint nodeType q, List.mem_map_of_mem _ hq, ?_⟩
      unfold sameDescriptor
      rw [Bool.and_eq_true, beq_iff_eq, beq_iff_eq]
      refine ⟨hqn, ?_⟩
      show q.constLabels.map Prod.snd = p.constLabels.map Prod.snd
      rw [hacc q hq, hp]
    rw [hv, h2]
    rfl
  · rw [Bool.not_eq_true] at hv
    rw [hv]
    rfl

/-- The loop started on a registry of points with fresh names registers the accepted
points of the lines, in order, when the lines fit the buffer, the node name is
valid UTF-8 and all names are distinct. -/
theorem scanLoop_distinct {F : Type} (pf : GoString → Option F) (nodeName nodeType : GoString)
    (lines : List GoString) (acc : List (MetricPoint F)) (count : Nat)
    (hshort : ∀ l ∈ lines, l.length < MaxScanTokenSize)
    (hvalid : ValidString nodeName = true)
    (hdistinct : ((acc ++ acceptedPoints pf nodeName lines).map (fun p => p.name)).Nodup) :
    scanLoop pf nodeName nodeType lines (acc.map (gaugeOfPoint nodeType)) count
      = .returned ((acc ++ acceptedPoints pf nodeName lines).map (gaugeOfPoint nodeType),
          count + (acceptedPoints pf nodeName lines).length) := by
  induction lines generalizing acc count with
  | nil => simp [scanLoop, acceptedPoints]
  | cons text rest ih =>
    have hrest : ∀ l ∈ rest, l.length < MaxScanTokenSize :=
      fun l hl => hshort l (List.mem_cons_of_mem _ hl)
    rw [scanLoop_cons _ _ _ _ _ _ _ (hshort text (List.mem_cons_self _ _))]
    cases hp : acceptedPoint pf nodeName text with
    | none =>
      have he : acceptedPoints pf nodeName (text :: rest) = acceptedPoints pf nodeName rest := by
        simp [acceptedPoints, List.filterMap_cons, hp]
      rw [he] at hdistinct ⊢
      exact ih acc count hrest hdistinct
    | some p =>
      have he : acceptedPoints pf nodeName (text :: rest)
          = p :: acceptedPoints pf nodeName rest := by
        simp [acceptedPoints, List.filterMap_cons, hp]
      rw [he] at hdistinct ⊢
      have hd2 : (((acc ++ [p]) ++ acceptedPoints pf nodeName rest).map
          (fun p => p.name)).Nodup := by
        rw [List.append_assoc]
        exact hdistinct
      have hfresh : p.name ∉ acc.map (fun q => q.name) := by
        rw [List.map_append, List.nodup_append] at hdistinct
        intro hmem
        exact hdistinct.2.2 hmem (by simp)
      obtain ⟨k, hk⟩ := name_of_acceptedPoint hp
      have hdv := descriptorValid_gaugeOfPoint nodeType nodeName k p hk
        (constLabels_of_acceptedPoint hp) hvalid
      simp only [MustRegister_fresh nodeType acc p hdv hfresh]
      rw [ih (acc ++ [p]) (count + 1) hrest hd2, List.append_assoc, List.length_cons]
      simp only [List.singleton_append]
      congr 2
      omega

/-- The loop panics in `MustRegister` as soon as an accepted line repeats a name. -/
theorem scanLoop_collision {F : Type} (pf : GoString → Option F) (nodeName nodeType : GoString)
    (lines : List GoString) (acc : List (MetricPoint F)) (count : Nat)
    (hshort : ∀ l ∈ lines, l.length < MaxScanTokenSize)
    (hvalid : ValidString nodeName = true)
    (hacc : ∀ q ∈ acc, q.constLabels = [(lit "node", nodeName)])
    (hcollide : ¬ ((acc ++ acceptedPoints pf nodeName lines).map (fun p => p.name)).Nodup)
    (haccd : (acc.map (fun p => p.name)).Nodup) :
    ∃ name, scanLoop pf nodeName nodeType lines (acc.map (gaugeOfPoint nodeType)) count
      = .panicked (.registerFailed name) := by
  induction lines generalizing acc count with
  | nil =>
    exfalso
    apply hcollide
    simpa [acceptedPoints] using haccd
  | cons text rest ih =>
    have hrest : ∀ l ∈ rest, l.length < MaxScanTokenSize :=
      fun l hl => hshort l (List.mem_cons_of_mem _ hl)
    rw [scanLoop_cons _ _ _ _ _ _ _ (hshort text (List.mem_cons_self _ _))]
    cases hp : acceptedPoint pf nodeName text with
    | none =>
      have he : acceptedPoints pf nodeName (text :: rest) = acceptedPoints pf nodeName rest := by
        simp [acceptedPoints, List.filterMap_cons, hp]
      rw [he] at hcollide
      exact ih acc count hrest hacc hcollide haccd
    | some p =>
      have he : acceptedPoints pf nodeName (text :: rest)
          = p :: acceptedPoints pf nodeName rest := by
        simp [acceptedPoints, List.filterMap_cons, hp]
      rw [he] at hcollide
      have hpl := constLabels_of_acceptedPoint hp
      by_cases hmem : p.name ∈ acc.map (fun q => q.name)
      · refine ⟨p.name, ?_⟩
        simp only [MustRegister_duplicate nodeType nodeName acc p hacc hpl hmem]
      · obtain ⟨k, hk⟩ := name_of_acceptedPoint hp
        have hdv := descriptorValid_gaugeOfPoint nodeType nodeName k p hk hpl hvalid
        simp only [MustRegister_fresh nodeType acc p hdv hmem]
        apply ih (acc ++ [p]) (count + 1) hrest
        · intro q hq
          rcases List.mem_append.1 hq with h | h
          · exact hacc q h
          · rw [List.mem_singleton.1 h]
            exact hpl
        · rw [List.append_assoc]
          exact hcollide
        · rw [List.map_append, List.nodup_append]
          refine ⟨haccd, by simp, ?_⟩
          intro a ha hb
          simp only [List.map_cons, List.map_nil, List.mem_singleton] at hb
          rw [hb] at ha
          exact hmem ha

theorem runAndParseScript_ran {F : Type} (pf : GoString → Option F) (lines : List GoString)
    (waitErr : Option GoError) (nodeName nodeType : GoString) (registry : Registry F) :
    runAndParseScript pf (.ran lines waitErr) nodeName nodeType registry =
      match scanLoop pf nodeName nodeType lines registry 0 with
      | .panicked p => .panicked p
      | .returned (registry1, count) =>
        .returned { registry := registry1, count := count, err := waitErr } := rfl


/-- Whenever two accepted lines of a probe output whose lines fit the scanner's
buffer give the same metric name, `runAndParseScript` on a fresh registry does
not return: it panics in `MustRegister`. -/
theorem runAndParseScript_collision_panics {F : Type} (pf : GoString → Option F)
    (lines : List GoString) (waitErr : Option GoError) (nodeName nodeType : GoString)
    (hshort : ∀ l ∈ lines, l.length < 64 * 1024)
    (hvalid : ValidString nodeName = true)
    (hcollide : ¬ ((acceptedPoints pf nodeName lines).map (fun p => p.name)).Nodup) :
    ∃ name, runAndParseScript pf (.ran lines waitErr) nodeName nodeType []
      = .panicked (.registerFailed name) := by
  obtain ⟨name, h⟩ := scanLoop_collision pf nodeName nodeType lines [] 0 hshort hvalid
    (by simp) (by simpa using hcollide) (by simp)
  refine ⟨name, ?_⟩
  unfold runAndParseScript
  simp only [List.map_nil] at h
  simp only [h]

/-- C1 (as stated, refuted): with a line of 64 KiB before the line `temp=1`, whose
point `edge_temp` is the only accepted one, the scanner stops at the long line
and the metric set is empty; and with the node identity the single byte FF and
the output `temp=1`, `MustRegister` rejects the label value and
`runAndParseScript` panics. -/
theorem runAndParseScript_accepted_points_counterexample :
    (acceptedPoints sampleParseFloat (lit "edgeA") [longLine, lit "temp=1"]
          = [⟨lit "edge_temp", ⟨false, 1, 0⟩, [(lit "node", lit "edgeA")]⟩]
        ∧ runAndParseScript sampleParseFloat (.ran [longLine, lit "temp=1"] none)
            (lit "edgeA") (lit "sensors") [] = .returned ⟨[], 0, none⟩)
      ∧ (acceptedPoints sampleParseFloat [0xFF] [lit "temp=1"]
          = [⟨lit "edge_temp", ⟨false, 1, 0⟩, [(lit "node", [0xFF])]⟩]
        ∧ runAndParseScript sampleParseFloat (.ran [lit "temp=1"] none)
            [0xFF] (lit "sensors") [] = .panicked (.registerFailed (lit "edge_temp"))) := by
  refine ⟨⟨?_, ?_⟩, by decide, by decide⟩
  · have h1 : acceptedPoint sampleParseFloat (lit "edgeA") longLine = none := by
      unfold acceptedPoint
      rw [if_neg longLine_not_meaningful]
    have h2 : acceptedPoint sampleParseFloat (lit "edgeA") (lit "temp=1")
        = some ⟨lit "edge_temp", ⟨false, 1, 0⟩, [(lit "node", lit "edgeA")]⟩ := by decide
    unfold acceptedPoints
    rw [List.filterMap_cons, h1]
    simp only
    rw [List.filterMap_cons, h2]
    rfl
  · rw [runAndParseScript_ran, scanLoop_long _ _ _ _ _ _ _ longLine_too_long]

/-- C1 (amended): when every line of the probe output is shorter than 64 KiB, the
node identity is valid UTF-8 and no two accepted lines give the same metric
name, `runAndParseScript` on a fresh registry returns, and the registry then
holds exactly the points of the accepted lines, one per accepted line and in
output order: each named `edge_` + sanitize(text before the first `=`), valued
with the parsed float and labelled `node = identity`.  Lines that are not
accepted add nothing and do not stop the scan. -/
theorem runAndParseScript_accepted_points {F : Type} (pf : GoString → Option F)
    (lines : List GoString) (waitErr : Option GoError) (identity nodeType : GoString)
    (hshort : ∀ l ∈ lines, l.length < 64 * 1024)
    (hvalid : ValidString identity = true)
    (hdistinct : ((acceptedPoints pf identity lines).map (fun p => p.name)).Nodup) :
    ∃ r, runAndParseScript pf (.ran lines waitErr) identity nodeType [] = .returned r
      ∧ r.registry.map Gauge.toPoint = acceptedPoints pf identity lines
      ∧ r.count = (acceptedPoints pf identity lines).length
      ∧ r.err = waitErr := by
  have h := scanLoop_distinct pf identity nodeType lines [] 0 hshort hvalid
    (by simpa using hdistinct)
  simp only [List.map_nil, List.nil_append, Nat.zero_add] at h
  refine ⟨⟨(acceptedPoints pf identity lines).map (gaugeOfPoint nodeType),
    (acceptedPoints pf identity lines).length, waitErr⟩, ?_, ?_, rfl, rfl⟩
  · unfold runAndParseScript
    simp only [h]
  · exact map_toPoint_gaugeOfPoint nodeType _

/-- C1 (amended), at the concrete input of the specification: the lines `temp=42.5`,
`bad_line`, `#comment`, `humidity=55` give exactly the two points
`edge_temp = 42.5` and `edge_humidity = 55`, labelled with the node. -/
theorem runAndParseScript_accepted_points_witness :
    ∃ r, runAndParseScript sampleParseFloat
          (.ran [lit "temp=42.5", lit "bad_line", lit "#comment", lit "humidity=55"] none)
          (lit "edgeA") (lit "sensors") [] = .returned r
      ∧ r.registry.map Gauge.toPoint
          = [⟨lit "edge_temp", ⟨false, 425, 1⟩, [(lit "node", lit "edgeA")]⟩,
             ⟨lit "edge_humidity", ⟨false, 55, 0⟩, [(lit "node", lit "edgeA")]⟩]
      ∧ r.count = 2
      ∧ r.err = none :=
  runAndParseScript_accepted_points sampleParseFloat
    [lit "temp=42.5", lit "bad_line", lit "#comment", lit "humidity=55"]
    none (lit "edgeA") (lit "sensors") (by decide) (by decide) (by decide)

/-- C2 (the code at the failing inputs): on the output `temp=1`, `temp=2`, and on
the output `a b=1`, `a-b=2` whose keys both sanitize to `edge_a_b`,
`runAndParseScript` does not complete with a single point holding the last
value: it panics in `MustRegister` at the second accepted line. -/
theorem runAndParseScript_collision_example :
    runAndParseScript sampleParseFloat (.ran [lit "temp=1", lit "temp=2"] none)
        (lit "edgeA") (lit "sensors") []
      = .panicked (.registerFailed (lit "edge_temp"))
    ∧ runAndParseScript sampleParseFloat (.ran [lit "a b=1", lit "a-b=2"] none)
        (lit "edgeA") (lit "sensors") []
      = .panicked (.registerFailed (lit "edge_a_b")) := by
  decide

/-! ## Theorems: WriteToTextfile -/

/-- The temporary path is never the published path. -/
theorem tmpPathOf_ne (path : GoString) (pid goroutines : Nat) :
    tmpPathOf path pid goroutines ≠ path := by
  intro h
  have hl := congrArg List.length h
  simp only [tmpPathOf, List.length_append, List.length_cons, List.length_nil,
    List.length_map] at hl
  omega

theorem deferredRemove_file_other (faults : Faults) (fs : FileSystem) (tmpPath q : GoString)
    (hq : q ≠ tmpPath) : (deferredRemove faults fs tmpPath).file q = fs.file q := by
  unfold deferredRemove
  cases faults.stat with
  | some e => rfl
  | none =>
    simp only
    split
    · cases faults.remove with
      | some e => rfl
      | none => simp [FileSystem.remove, hq]
    · rfl

theorem deferredRemove_file_tmp (faults : Faults) (fs : FileSystem) (tmpPath : GoString)
    (hstat : faults.stat = none) (hremove : faults.remove = none) :
    (deferredRemove faults fs tmpPath).file tmpPath = none := by
  unfold deferredRemove
  rw [hstat, hremove]
  cases h : fs.file tmpPath with
  | none => simp [h]
  | some c => simp [h, FileSystem.remove]

/-- When the body returns an error, the file at any path other than the temporary
one is as it was. -/
theorem writeBody_error_frame {MF : Type} (path tmpPath : GoString)
    (gathered : Except GoError (List MF)) (encode : MF → GoString × Option GoError)
    (faults : Faults) (fs : FileSystem) (q : GoString) (hq : q ≠ tmpPath)
    (herr : (writeBody path tmpPath gathered encode faults fs).1 ≠ none) :
    (writeBody path tmpPath gathered encode faults fs).2.file q = fs.file q := by
  unfold writeBody at herr ⊢
  cases ho : faults.openFile with
  | some e => simp
  | none =>
    cases gathered with
    | error e => simp [FileSystem.write, hq]
    | ok mfs =>
      cases he : (encodeAll encode mfs []).2 with
      | some e => simp [he, FileSystem.write, hq]
      | none =>
        cases hc : faults.close with
        | some e => simp [he, FileSystem.write, hq]
        | none =>
          cases hr : faults.rename with
          | some e => simp [he, FileSystem.write, hq]
          | none => simp [ho, he, hc, hr] at herr

/-- When `WriteToTextfile` returns an error, the file at `path` has the content it
had initially and the temporary path differs from `path`; the temporary file is
gone provided the `os.Stat` and `os.Remove` of the deferred function do not
fail. -/
theorem WriteToTextfile_error_frame {MF : Type} (path : GoString) (pid goroutines : Nat)
    (gathered : Except GoError (List MF)) (encode : MF → GoString × Option GoError)
    (faults : Faults) (fs : FileSystem)
    (herr : (WriteToTextfile path pid goroutines gathered encode faults fs).1 ≠ none) :
    (WriteToTextfile path pid goroutines gathered encode faults fs).2.file path = fs.file path
      ∧ tmpPathOf path pid goroutines ≠ path
      ∧ (faults.stat = none → faults.remove = none →
          (WriteToTextfile path pid goroutines gathered encode faults fs).2.file
            (tmpPathOf path pid goroutines) = none) := by
  have hne := tmpPathOf_ne path pid goroutines
  refine ⟨?_, hne, fun hs hr => deferredRemove_file_tmp _ _ _ hs hr⟩
  show (deferredRemove _ _ _).file path = _
  rw [deferredRemove_file_other _ _ _ _ (Ne.symm hne)]
  exact writeBody_error_frame path _ gathered encode faults fs path (Ne.symm hne) herr

/-- C9 (the code at the failing input): with the snapshot `old` at `/d/m.prom`, a
left-over temporary file `/d/m.prom.7.3` and a directory that has become
read-only, `os.OpenFile` truncates the left-over file, the families are written,
`os.Rename` fails, and the `os.Remove` of the deferred function fails too, its
error discarded: `WriteToTextfile` returns the error of `Rename` and the
temporary file still exists, holding the new text.  The snapshot is untouched. -/
theorem WriteToTextfile_leaves_temporary_file :
    (WriteToTextfile (lit "/d/m.prom") 7 3 (.ok [lit "x 1"]) sampleEncode
        ⟨none, none, some (lit "permission denied"), none, some (lit "permission denied")⟩
        sampleFS).1 = some (lit "permission denied")
      ∧ (WriteToTextfile (lit "/d/m.prom") 7 3 (.ok [lit "x 1"]) sampleEncode
        ⟨none, none, some (lit "permission denied"), none, some (lit "permission denied")⟩
        sampleFS).2.file (tmpPathOf (lit "/d/m.prom") 7 3) = some (lit "x 1")
      ∧ tmpPathOf (lit "/d/m.prom") 7 3 = lit "/d/m.prom.7.3"
      ∧ (WriteToTextfile (lit "/d/m.prom") 7 3 (.ok [lit "x 1"]) sampleEncode
        ⟨none, none, some (lit "permission denied"), none, some (lit "permission denied")⟩
        sampleFS).2.file (lit "/d/m.prom") = some (lit "old") := by
  decide

/-- With no failing operation the encoded families are published at `path` and the
temporary file is gone. -/
theorem WriteToTextfile_success_example :
    (WriteToTextfile (lit "/d/m.prom") 7 3 (.ok [lit "x 1", lit "y 2"]) sampleEncode
        ⟨none, none, none, none, none⟩ sampleFS).1 = none
      ∧ (WriteToTextfile (lit "/d/m.prom") 7 3 (.ok [lit "x 1", lit "y 2"]) sampleEncode
        ⟨none, none, none, none, none⟩ sampleFS).2.file (lit "/d/m.prom") = some (lit "x 1y 2")
      ∧ (WriteToTextfile (lit "/d/m.prom") 7 3 (.ok [lit "x 1", lit "y 2"]) sampleEncode
        ⟨none, none, none, none, none⟩ sampleFS).2.file (lit "/d/m.prom.7.3") = none := by
  decide

/-! ## Examples of decoding and trimming -/

/-- The runes of valid text are its characters with their widths, and a byte that
starts no valid encoding is `RuneError`, one byte wide. -/
theorem rangeRunes_examples :
    rangeRunes (lit "a\u00e9\u20ac") = [(0x61, 1), (0xE9, 2), (0x20AC, 3)]
      ∧ rangeRunes [0xFF, 0xC3, 0x61, 0xE2, 0x82]
        = [(RuneError, 1), (RuneError, 1), (0x61, 1), (RuneError, 1), (RuneError, 1)] := by
  decide

/-- The two invalid bytes FF FE become one `_` each, so `len` is kept; the two
bytes of U+00E9 become one `_`. -/
theorem sanitize_examples :
    sanitize [0xFF, 0xFE, 0x61] = lit "__a"
      ∧ sanitize (lit "temp 1\u00e9:x") = lit "temp_1_:x" := by
  decide

/-- White space of one and of several bytes is trimmed at both ends; a lone byte
A0 is not the character U+00A0 and stays. -/
theorem TrimSpace_examples :
    TrimSpace (lit " \t nodeA = x \r") = lit "nodeA = x"
      ∧ TrimSpace ([0xC2, 0xA0, 0xE2, 0x80, 0x83] ++ lit "x y" ++ [0xE3, 0x80, 0x80, 0x20])
        = lit "x y"
      ∧ TrimSpace [0x20, 0xA0, 0x20] = [0xA0] := by
  decide

end Collector
